import Mathlib

/-!
# Verification of the order lifecycle and settlement engine of
# `chickentendermarketplace`

A shallow embedding of the persisted data model (User, Order,
Transaction/LedgerEntry, Audit) and of the operations implemented by the
Express routers of the repository:

* `src/orders/routers/orderAdministration.router.ts` —
  `createOrder`, `closeOrder`/`closeOrderById`, `cancelOrder`, `logOrder`
  (settlement), and the `closingOrder`/`closeOrder` agenda jobs;
* `src/orders/routers/order.router.ts` — `joinOrder`, `leaveOrder`;
* `src/users/routers/userAdministration.router.ts` — `setCoins`;
* `src/users/routers/userRedirection.router.ts` — `transferCoins`.

MongoDB collections are modelled as lists of records; `ObjectId`s as `Nat`;
dates as `Int` timestamps; numbers as `Int`.  `findOne`/`findOneAndUpdate`
act on the first matching element, as in MongoDB.  A multi-document mongo
session transaction (startTransaction … commitTransaction / abortTransaction)
is modelled by an `Option Db`-returning function: `none` means the promise
chain rejected before commit and `abortTransaction` ran, so the database is
left unchanged by the run function.
-/

namespace CTM

/-- Order lifecycle states, mirroring `OrderState` in
`src/orders/models/order.ts` (Closing = 0, Open = 1, Closed = 2,
Archived = 3, Cancelled = 4). -/
inductive OrderState where
  | Closing
  | Open
  | Closed
  | Archived
  | Cancelled
deriving DecidableEq, Repr

/-- A user document (`src/users/models/user.ts`): identity plus the mutable
coin balance and enabled flag.  Fields not touched by the verified
operations (names, email, avatar, roles, oAuthIds) are omitted. -/
structure User where
  uid : Nat
  coins : Int
  enabled : Bool
deriving DecidableEq, Repr

/-- One participant record in `Order.userOrders`: a `ref` to a user plus the
free-form detail strings collected at join time. -/
structure UserOrder where
  user : Nat
  details : List String
deriving DecidableEq, Repr

/-- An order document (`src/orders/models/order.ts`). -/
structure Order where
  oid : Nat
  openDate : Int
  closeDate : Int
  location : String
  description : String
  cost : Int
  state : OrderState
  userOrders : List UserOrder
  purchaser : Option Nat
deriving DecidableEq, Repr

/-- One entry of a transaction/ledger record
(`src/transactions/models/transaction.ts`): the affected user with the
balance before and after. -/
structure TransactionEntry where
  user : Nat
  previousValue : Int
  newValue : Int
deriving DecidableEq, Repr

/-- A transaction (ledger) document
(`src/transactions/models/transaction.ts`). -/
structure Transaction where
  description : String
  date : Int
  entries : List TransactionEntry
deriving DecidableEq, Repr

/-- An audit document (`src/audit/models/audit.ts`), written through
`audit(session, message)` in `src/audit/audit.ts`.  The interpolated
human-readable message is abbreviated to a short tag; no verified operation
reads it back. -/
structure AuditEntry where
  date : Int
  log : String
deriving DecidableEq, Repr

/-- The persisted state: the four MongoDB collections the verified
operations touch. -/
structure Db where
  orders : List Order
  users : List User
  transactions : List Transaction
  audits : List AuditEntry
deriving DecidableEq, Repr

/-- `collection.findOne(filter)`: the first document matching the filter. -/
def mongoFindOne (p : α → Prop) [DecidablePred p] : List α → Option α
  | [] => none
  | x :: xs => if p x then some x else mongoFindOne p xs

/-- `collection.findOneAndUpdate(filter, update)` (without `new: true`):
updates the first matching document and returns the document as it was
BEFORE the update, or `none` and the unchanged collection when nothing
matches. -/
def findOneAndUpdate (p : α → Prop) [DecidablePred p] (f : α → α) :
    List α → Option α × List α
  | [] => (none, [])
  | x :: xs =>
    if p x then (some x, f x :: xs)
    else
      let r := findOneAndUpdate p f xs
      (r.1, x :: r.2)

/-- `User.findById` / population of a `ref` to a user. -/
def findUserById (users : List User) (i : Nat) : Option User :=
  mongoFindOne (fun u => u.uid = i) users

/-- `doc.save()` on a loaded user document: replaces the stored document
with the same `_id` by the in-memory one. -/
def saveUser (users : List User) (u : User) : List User :=
  (findOneAndUpdate (fun v => v.uid = u.uid) (fun _ => u) users).2

/-- `Order.findById`ish lookup by id. -/
def findOrderById (orders : List Order) (i : Nat) : Option Order :=
  mongoFindOne (fun o => o.oid = i) orders

/-- `doc.save()` on a loaded order document. -/
def saveOrder (orders : List Order) (o : Order) : List Order :=
  (findOneAndUpdate (fun p => p.oid = o.oid) (fun _ => o) orders).2

/-- `.populate('userOrders.user')`: resolve every participant `ref` to the
user document.  A dangling `ref` makes the settlement promise chain throw
when the populated document is dereferenced, so it is modelled as a
failure. -/
def populateUsers (users : List User) : List UserOrder → Option (List User)
  | [] => some []
  | uo :: rest =>
    match findUserById users uo.user, populateUsers users rest with
    | some u, some us => some (u :: us)
    | _, _ => none

/-- Outcome flashed to the caller (`req.flash('success', …)` /
`req.flash('error', …)`). -/
inductive Flash where
  | success (msg : String)
  | error (msg : String)
deriving DecidableEq, Repr

/-- Whether a flash outcome reports a failure. -/
def Flash.isError : Flash → Bool
  | .success _ => false
  | .error _ => true

/-- An agenda job record: job name, due time, and the order id it carries
as `data`. -/
structure Job where
  name : String
  due : Int
  data : Nat
deriving DecidableEq, Repr

/-- The order-type configuration (`src/orders/models/orderType.ts`):
required join fields are identified by name. -/
structure OrderField where
  name : String
  values : List String
deriving DecidableEq, Repr

/-- A type of order that can be created
(`src/orders/models/orderType.ts`). -/
structure OrderType where
  name : String
  description : String
  cost : Int
  fields : List OrderField
deriving DecidableEq, Repr

/-- Lookup of a posted form value (`req.body[name]`); `none` models an
absent key. -/
def bodyValue (body : List (String × String)) (k : String) : Option String :=
  (mongoFindOne (fun p : String × String => p.1 = k) body).map (fun p => p.2)

/-- `OrderAdministrationRouter.createOrder`
(`orderAdministration.router.ts:246-288`): inserts a new `Open` order with
the cost/description of the configured type, and schedules a single
`closingOrder` agenda job at `closeDate − orderCloseTimeout`, clamped to
`now` when that instant is already past.  Returns the database and the
scheduler queue after the operation. -/
def createOrder (orderTypes : List OrderType) (db : Db) (jobs : List Job)
    (newId : Nat) (typeName : String) (closeDate now orderCloseTimeout : Int) :
    Db × List Job :=
  let typeConfig := mongoFindOne (fun t : OrderType => t.name = typeName) orderTypes
  let order : Order :=
    { oid := newId
      location := typeName
      description := match typeConfig with | some t => t.description | none => ""
      cost := match typeConfig with | some t => t.cost | none => 1
      closeDate := closeDate
      openDate := now
      state := OrderState.Open
      userOrders := []
      purchaser := none }
  let closingTime :=
    if closeDate - orderCloseTimeout < now then now else closeDate - orderCloseTimeout
  ({ db with orders := db.orders ++ [order] },
   jobs ++ [{ name := "closingOrder", due := closingTime, data := newId }])

/-- The `closingOrder` agenda job handler
(`orderAdministration.router.ts:82-122`), fired at `fireTime`: the job has
already removed itself (`job.remove()`), so `jobs` is the remaining queue.
It conditionally moves the order from `Open` to `Closing`
(`Order.findOneAndUpdate(...).populate('userOrders.user')`); only when the
update matched does the chain go on.  It then builds the `orderClosing`
recipient list as `order.userOrders.map(uo => uo.user._id)`: a dangling
participant ref (the populated `uo.user` is `null`) throws there,
synchronously, before `sendMail` is even invoked, so the rejection skips
the `agenda.schedule` of `closeOrder` — although the `Open → Closing`
update has already committed.  Only a `sendMail` failure itself is caught
by the inner `.catch`.  So: no match → unchanged, no job; match but a
dangling ref → state committed, no job; match and all refs resolve →
state committed and `closeOrder` scheduled at
`fireTime + orderCloseTimeout`. -/
def closingOrderJob (db : Db) (jobs : List Job) (orderId : Nat)
    (fireTime orderCloseTimeout : Int) : Db × List Job :=
  let r := findOneAndUpdate
    (fun o : Order => o.oid = orderId ∧ o.state = OrderState.Open)
    (fun o => { o with state := OrderState.Closing }) db.orders
  match r.1 with
  | none => ({ db with orders := r.2 }, jobs)
  | some order =>
    match populateUsers db.users order.userOrders with
    | none => ({ db with orders := r.2 }, jobs)
    | some _ =>
      ({ db with orders := r.2 },
       jobs ++ [{ name := "closeOrder", due := fireTime + orderCloseTimeout,
                  data := orderId }])

/-- `OrderAdministrationRouter.closeOrderById`
(`orderAdministration.router.ts:421-439`): finds the order while it is
`Open` or `Closing`, rejects (`none`) otherwise; sets the state to `Closed`
when there are participants and to `Cancelled` when there are none, and
overwrites `closeDate` with the actual closing time. -/
def closeOrderById (db : Db) (orderId : Nat) (now : Int) : Option Db :=
  match mongoFindOne
      (fun o : Order => o.oid = orderId ∧
        (o.state = OrderState.Open ∨ o.state = OrderState.Closing)) db.orders with
  | none => none
  | some order =>
    let order2 : Order :=
      { order with
        state := if order.userOrders.length > 0
          then OrderState.Closed else OrderState.Cancelled
        closeDate := now }
    some { db with orders := saveOrder db.orders order2 }

/-- The `closeOrder` agenda job handler
(`orderAdministration.router.ts:124-129`): runs `closeOrderById`; a
rejection is only logged. -/
def closeOrderJob (db : Db) (orderId : Nat) (now : Int) : Db :=
  (closeOrderById db orderId now).getD db

/-- `OrderAdministrationRouter.cancelOrder`
(`orderAdministration.router.ts:385-412`): a single
`Order.findOneAndUpdate` moving an `Open`/`Closing`/`Closed` order to
`Cancelled`, clearing `userOrders` and stamping `closeDate`.  The promise
chain never inspects the (possibly `null`) result, so the success flash is
emitted whether or not any document matched. -/
def cancelOrder (db : Db) (orderId : Nat) (now : Int) : Db × Flash :=
  let r := findOneAndUpdate
    (fun o : Order => o.oid = orderId ∧
      (o.state = OrderState.Open ∨ o.state = OrderState.Closing ∨
       o.state = OrderState.Closed))
    (fun o => { o with state := OrderState.Cancelled, userOrders := ([] : List UserOrder), closeDate := now })
    db.orders
  ({ db with orders := r.2 }, Flash.success "Order successfully canceled")

/-- `OrderRouter.joinOrder` (`order.router.ts:148-187`): the find filter
requires the order to be `Open` or `Closing` and the user not already in
`userOrders`; then every field of the order type must be present and
truthy in the body; on success the participant is appended and the order
saved.  Every failure falls into the common catch and flashes the same
error. -/
def joinOrder (orderTypes : List OrderType) (db : Db) (orderId userId : Nat)
    (body : List (String × String)) : Db × Flash :=
  match mongoFindOne
      (fun o : Order => o.oid = orderId ∧
        (o.state = OrderState.Open ∨ o.state = OrderState.Closing) ∧
        ¬ (∃ uo ∈ o.userOrders, uo.user = userId)) db.orders with
  | none => (db, Flash.error "Failed to join order; it may already be closed")
  | some order =>
    match mongoFindOne (fun t : OrderType => t.name = order.location) orderTypes with
    | none => (db, Flash.error "Failed to join order; it may already be closed")
    | some thisOrderType =>
      match thisOrderType.fields.mapM (fun f =>
          match bodyValue body f.name with
          | none => none
          | some v => if v = "" then none else some (f.name ++ ": " ++ v)) with
      | none => (db, Flash.error "Failed to join order; it may already be closed")
      | some details =>
        let order2 : Order :=
          { order with userOrders :=
              order.userOrders ++ [{ user := userId, details := details }] }
        ({ db with orders := saveOrder db.orders order2 },
         Flash.success "Successfully joined order")

/-- `OrderRouter.leaveOrder` (`order.router.ts:261-291`): an
`Order.findOneAndUpdate` whose filter requires `Open`/`Closing` state and
current membership, with a `$pull` of the user's participations; a `null`
result throws and flashes the error. -/
def leaveOrder (db : Db) (orderId userId : Nat) : Db × Flash :=
  let r := findOneAndUpdate
    (fun o : Order => o.oid = orderId ∧
      (o.state = OrderState.Open ∨ o.state = OrderState.Closing) ∧
      (∃ uo ∈ o.userOrders, uo.user = userId))
    (fun o => { o with userOrders := o.userOrders.filter (fun uo => ¬ uo.user = userId) })
    db.orders
  match r.1 with
  | none => (db, Flash.error "Failed to leave order; it may already be closed")
  | some _ => ({ db with orders := r.2 }, Flash.success "Successfully left order")

/-- `UserAdministrationRouter.setCoins`
(`userAdministration.router.ts:235-283`): inside a session transaction,
`User.findByIdAndUpdate` force-sets the balance (returning the old
document), one audit entry and one single-entry transaction recording
old/new value are appended, and the whole unit commits; any failure aborts
leaving the database unchanged. -/
def setCoins (db : Db) (targetId : Nat) (newCoins : Int) (now : Int) : Db :=
  let r := findOneAndUpdate (fun u : User => u.uid = targetId)
    (fun u => { u with coins := newCoins }) db.users
  match r.1 with
  | none => db
  | some user =>
    { db with
      users := r.2
      audits := db.audits ++ [{ date := now, log := "Admin set coins" }]
      transactions := db.transactions ++
        [{ description := "Forced coin update"
           date := now
           entries := [{ user := user.uid, previousValue := user.coins,
                         newValue := newCoins }] }] }

/-- `UserRouter.transferCoins` (`userRedirection.router.ts:358-436`), with
the route-level validation `body('coins').isInt({ min: 1 })`
(`userRedirection.router.ts:188-196`) folded in front: amounts below 1 are
rejected before the handler runs; an amount above the sender's balance is
rejected before any mutation; otherwise a session transaction increments
the recipient, decrements the sender, appends one audit entry and one
two-entry transaction, and commits. -/
def transferCoins (db : Db) (sourceId targetId : Nat) (coins : Int) (now : Int) :
    Db × Flash :=
  if coins < 1 then
    (db, Flash.error "Invalid value (coins)")
  else
    match findUserById db.users sourceId with
    | none => (db, Flash.error "Failed to transfer coins")
    | some reqUser =>
      if coins > reqUser.coins then
        (db, Flash.error ("Can transfer at most " ++ toString reqUser.coins ++ " coins"))
      else
        let rt := findOneAndUpdate (fun u : User => u.uid = targetId)
          (fun u => { u with coins := u.coins + coins }) db.users
        match rt.1 with
        | none => (db, Flash.error "Failed to transfer coins")
        | some targetUser =>
          let rs := findOneAndUpdate (fun u : User => u.uid = sourceId)
            (fun u => { u with coins := u.coins - coins }) rt.2
          match rs.1 with
          | none => (db, Flash.error "Failed to transfer coins")
          | some sourceUser =>
            ({ db with
               users := rs.2
               audits := db.audits ++ [{ date := now, log := "Coin transfer audit" }]
               transactions := db.transactions ++
                 [{ description := "Coin transfer"
                    date := now
                    entries := [
                      { user := targetUser.uid, previousValue := targetUser.coins,
                        newValue := targetUser.coins + coins },
                      { user := sourceUser.uid, previousValue := sourceUser.coins,
                        newValue := sourceUser.coins - coins }] }] },
             Flash.success ("Transferred " ++ toString coins ++ " coins"))

/-- `OrderAdministrationRouter.logOrder`
(`orderAdministration.router.ts:476-589`): the settlement transaction.
Inside one mongo session it
1. finds the order in state `Closed` with participants populated;
2. credits the chosen purchaser `cost * (userOrders.length − 1)` via
   `User.findByIdAndUpdate` (which returns the pre-update document) and
   rejects when the purchaser id resolves to no user;
3. debits `cost` from every participant other than the purchaser by
   decrementing the populated in-memory document and saving it;
4. sets the order's state to `Archived` and its `purchaser`;
5. appends one audit entry;
6. appends one transaction whose first entry is the purchaser
   (`previousValue` = the balance before the credit) followed by one entry
   per non-purchaser participant, each built from the already-decremented
   in-memory balance as `previousValue = coins + cost`, `newValue = coins`.
`none` models any pre-commit rejection, after which `abortTransaction`
leaves the database unchanged.

The credit `order.cost * (order.userOrders.length - 1)` applied to the
purchaser (`orderAdministration.router.ts:496-500`): -/
def settleCredit (o : Order) : Int :=
  o.cost * ((o.userOrders.length : Int) - 1)

/-- Step 3 of the settlement (`orderAdministration.router.ts:507-517`):
`order.userOrders.filter(uo => !purchaser.equals(uo.user)).map(uo =>
{ uo.user.coins -= order.cost; return uo.user.save(); })`, over the
populated participant documents. -/
def settleDebits (cost : Int) (purchaserUid : Nat) (parts : List User)
    (users : List User) : List User :=
  parts.foldl
    (fun us u =>
      if u.uid = purchaserUid then us
      else saveUser us { u with coins := u.coins - cost }) users

/-- The non-purchaser ledger entries of the settlement
(`orderAdministration.router.ts:547-558`): built from the already
decremented in-memory balance, `previousValue = coins + cost`,
`newValue = coins`. -/
def settleEntries (cost : Int) (purchaserUid : Nat) (parts : List User) :
    List TransactionEntry :=
  (parts.filter (fun u => ¬ u.uid = purchaserUid)).map (fun u =>
    { user := u.uid
      previousValue := (u.coins - cost) + cost
      newValue := u.coins - cost })

/-- The settlement transaction itself; see the doc comment above. -/
def logOrder (db : Db) (orderId purchaserId : Nat) (now : Int) : Option Db :=
  match mongoFindOne
      (fun o : Order => o.oid = orderId ∧ o.state = OrderState.Closed) db.orders with
  | none => none
  | some order =>
    match populateUsers db.users order.userOrders with
    | none => none
    | some parts =>
      let r := findOneAndUpdate (fun u : User => u.uid = purchaserId)
        (fun u => { u with coins := u.coins + settleCredit order }) db.users
      match r.1 with
      | none => none
      | some purchaser =>
        let purchaserEntry : TransactionEntry :=
          { user := purchaser.uid
            previousValue := purchaser.coins
            newValue := purchaser.coins + settleCredit order }
        let archived : Order :=
          { order with
            state := OrderState.Archived
            purchaser := some purchaser.uid }
        some { orders := saveOrder db.orders archived
               users := settleDebits order.cost purchaser.uid parts r.2
               transactions := db.transactions ++
                 [{ description := "Logged order", date := now,
                    entries := purchaserEntry ::
                      settleEntries order.cost purchaser.uid parts }]
               audits := db.audits ++ [{ date := now, log := "Logged order audit" }] }

/-- The observable effect of the settlement request: on `none` the session
transaction was aborted and no write is visible. -/
def applyLogOrder (db : Db) (orderId purchaserId : Nat) (now : Int) : Db :=
  (logOrder db orderId purchaserId now).getD db

/-- The coin delta of one ledger entry. -/
def entryDelta (e : TransactionEntry) : Int := e.newValue - e.previousValue

/-- The net coin movement of a ledger record. -/
def entriesDelta (es : List TransactionEntry) : Int := (es.map entryDelta).sum

/-- All mutating operations the routers expose, for stating properties
quantified over every operation (such as: only settlement produces an
`Archived` order). -/
inductive Op where
  | joinOp (orderId userId : Nat) (body : List (String × String))
  | leaveOp (orderId userId : Nat)
  | closeOp (orderId : Nat) (now : Int)
  | cancelOp (orderId : Nat) (now : Int)
  | createOp (newId : Nat) (typeName : String) (closeDate now timeout : Int)
  | closingJobOp (orderId : Nat) (fireTime timeout : Int)
  | setCoinsOp (userId : Nat) (coins now : Int)
  | transferOp (sourceId targetId : Nat) (coins now : Int)
  | logOp (orderId purchaserId : Nat) (now : Int)
deriving DecidableEq, Repr

/-- Whether an operation is the settlement (`logOrder`). -/
def Op.isSettle : Op → Bool
  | .logOp _ _ _ => true
  | _ => false

/-- The database after running one operation. -/
def applyOp (orderTypes : List OrderType) (db : Db) : Op → Db
  | .joinOp orderId userId body => (joinOrder orderTypes db orderId userId body).1
  | .leaveOp orderId userId => (leaveOrder db orderId userId).1
  | .closeOp orderId now => closeOrderJob db orderId now
  | .cancelOp orderId now => (cancelOrder db orderId now).1
  | .createOp newId typeName closeDate now timeout =>
      (createOrder orderTypes db [] newId typeName closeDate now timeout).1
  | .closingJobOp orderId fireTime timeout =>
      (closingOrderJob db [] orderId fireTime timeout).1
  | .setCoinsOp userId coins now => setCoins db userId coins now
  | .transferOp sourceId targetId coins now =>
      (transferCoins db sourceId targetId coins now).1
  | .logOp orderId purchaserId now => applyLogOrder db orderId purchaserId now

/-! ## Generic lemmas about the MongoDB collection primitives -/

section MongoLemmas

variable {α : Type} {p : α → Prop} [DecidablePred p] {f : α → α} {l : List α}

theorem mongoFindOne_eq_none_of (h : ∀ x ∈ l, ¬ p x) : mongoFindOne p l = none := by
  induction l with
  | nil => rfl
  | cons y ys ih =>
    simp only [mongoFindOne]
    rw [if_neg (h y (List.mem_cons_self y ys))]
    exact ih (fun x hx => h x (List.mem_cons_of_mem y hx))

theorem mongoFindOne_eq_some_inv {x : α} (h : mongoFindOne p l = some x) :
    x ∈ l ∧ p x := by
  induction l with
  | nil => simp [mongoFindOne] at h
  | cons y ys ih =>
    simp only [mongoFindOne] at h
    by_cases hp : p y
    · rw [if_pos hp] at h
      cases h
      exact ⟨List.mem_cons_self _ _, hp⟩
    · rw [if_neg hp] at h
      obtain ⟨hm, hpx⟩ := ih h
      exact ⟨List.mem_cons_of_mem _ hm, hpx⟩

theorem mongoFindOne_eq_none_inv (h : mongoFindOne p l = none) :
    ∀ x ∈ l, ¬ p x := by
  induction l with
  | nil => intro x hx; cases hx
  | cons y ys ih =>
    simp only [mongoFindOne] at h
    by_cases hp : p y
    · rw [if_pos hp] at h; cases h
    · rw [if_neg hp] at h
      intro x hx
      rcases List.mem_cons.mp hx with rfl | hx'
      · exact hp
      · exact ih h x hx'

/-- With pairwise distinct keys, at most one element has key `i`. -/
theorem keyed_unique (key : α → Nat) {o : α} {i : Nat}
    (hnd : (l.map key).Nodup) (ho : o ∈ l) (hko : key o = i) :
    ∀ x ∈ l, key x = i → x = o := by
  intro x hx hkx
  exact List.inj_on_of_nodup_map hnd hx ho (by rw [hkx, hko])

/-- `findOne` with a key-guarded filter on a collection with distinct keys:
the outcome is decided entirely by the unique element carrying the key. -/
theorem mongoFindOne_keyed (key : α → Nat) {o : α} {i : Nat}
    (hp : ∀ x, p x → key x = i)
    (hnd : (l.map key).Nodup) (ho : o ∈ l) (hko : key o = i) :
    mongoFindOne p l = if p o then some o else none := by
  induction l with
  | nil => cases ho
  | cons y ys ih =>
    rw [List.map_cons, List.nodup_cons] at hnd
    rcases List.mem_cons.mp ho with rfl | ho'
    · simp only [mongoFindOne]
      by_cases hp0 : p o
      · rw [if_pos hp0, if_pos hp0]
      · rw [if_neg hp0, if_neg hp0]
        refine mongoFindOne_eq_none_of (fun x hx hpx => ?_)
        exact hnd.1 (by
          rw [hko, ← hp x hpx]
          exact List.mem_map_of_mem key hx)
    · have hyne : ¬ p y := fun hpy => hnd.1 (by
        rw [hp y hpy, ← hko]
        exact List.mem_map_of_mem key ho')
      simp only [mongoFindOne]
      rw [if_neg hyne]
      exact ih hnd.2 ho'

theorem findOneAndUpdate_eq_none_of (h : ∀ x ∈ l, ¬ p x) :
    findOneAndUpdate p f l = (none, l) := by
  induction l with
  | nil => rfl
  | cons y ys ih =>
    simp only [findOneAndUpdate]
    rw [if_neg (h y (List.mem_cons_self y ys))]
    rw [ih (fun x hx => h x (List.mem_cons_of_mem y hx))]

/-- The document returned by `findOneAndUpdate` is the one `findOne` would
return. -/
theorem findOneAndUpdate_fst :
    (findOneAndUpdate p f l).1 = mongoFindOne p l := by
  induction l with
  | nil => rfl
  | cons y ys ih =>
    simp only [findOneAndUpdate, mongoFindOne]
    by_cases hp : p y
    · rw [if_pos hp, if_pos hp]
    · rw [if_neg hp, if_neg hp]
      exact ih

theorem findOneAndUpdate_mem {x : α} (h : x ∈ (findOneAndUpdate p f l).2) :
    x ∈ l ∨ ∃ y ∈ l, p y ∧ x = f y := by
  induction l with
  | nil => simp [findOneAndUpdate] at h
  | cons y ys ih =>
    simp only [findOneAndUpdate] at h
    by_cases hp : p y
    · rw [if_pos hp] at h
      rcases List.mem_cons.mp h with rfl | hx
      · exact Or.inr ⟨y, List.mem_cons_self y ys, hp, rfl⟩
      · exact Or.inl (List.mem_cons_of_mem y hx)
    · rw [if_neg hp] at h
      rcases List.mem_cons.mp h with rfl | hx
      · exact Or.inl (List.mem_cons_self x ys)
      · rcases ih hx with hx' | ⟨z, hz, hpz, hfz⟩
        · exact Or.inl (List.mem_cons_of_mem y hx')
        · exact Or.inr ⟨z, List.mem_cons_of_mem y hz, hpz, hfz⟩

/-- Keys are untouched when the update preserves the matched document's
key. -/
theorem findOneAndUpdate_map_key (key : α → Nat)
    (hf : ∀ x, p x → key (f x) = key x) :
    (findOneAndUpdate p f l).2.map key = l.map key := by
  induction l with
  | nil => rfl
  | cons y ys ih =>
    simp only [findOneAndUpdate]
    by_cases hp : p y
    · rw [if_pos hp]
      simp only [List.map_cons, hf y hp]
    · rw [if_neg hp]
      simp only [List.map_cons, ih]

/-- Lookups at a key the update cannot touch are unchanged. -/
theorem findOneAndUpdate_lookup_other (key : α → Nat) {i j : Nat}
    (hp : ∀ x, p x → key x = i) (hf : ∀ x, p x → key (f x) = key x)
    (hij : j ≠ i) :
    mongoFindOne (fun x => key x = j) (findOneAndUpdate p f l).2 =
      mongoFindOne (fun x => key x = j) l := by
  induction l with
  | nil => rfl
  | cons y ys ih =>
    simp only [findOneAndUpdate]
    by_cases hpy : p y
    · rw [if_pos hpy]
      simp only [mongoFindOne]
      have h1 : ¬ key (f y) = j := by
        rw [hf y hpy, hp y hpy]; exact fun h => hij h.symm
      have h2 : ¬ key y = j := by
        rw [hp y hpy]; exact fun h => hij h.symm
      rw [if_neg h1, if_neg h2]
    · rw [if_neg hpy]
      simp only [mongoFindOne]
      by_cases hk : key y = j
      · rw [if_pos hk, if_pos hk]
      · rw [if_neg hk, if_neg hk]
        exact ih

/-- Lookup at the update's own key, when the filter is exactly a key
match: the first matching document (if any) is replaced. -/
theorem findOneAndUpdate_lookup_self (key : α → Nat) {i : Nat}
    (hp : ∀ x, p x ↔ key x = i) (hf : ∀ x, p x → key (f x) = key x) :
    mongoFindOne (fun x => key x = i) (findOneAndUpdate p f l).2 =
      (mongoFindOne (fun x => key x = i) l).map f := by
  induction l with
  | nil => rfl
  | cons y ys ih =>
    simp only [findOneAndUpdate]
    by_cases hpy : p y
    · rw [if_pos hpy]
      have hk : key y = i := (hp y).mp hpy
      have hk' : key (f y) = i := by rw [hf y hpy, hk]
      simp only [mongoFindOne]
      rw [if_pos hk', if_pos hk]
      rfl
    · rw [if_neg hpy]
      have hk : ¬ key y = i := fun h => hpy ((hp y).mpr h)
      simp only [mongoFindOne]
      rw [if_neg hk, if_neg hk]
      exact ih

/-- With distinct keys, a key-guarded filter satisfied by the unique
element `o` with key `i` makes the post-update lookup at `i` return
`f o`. -/
theorem findOneAndUpdate_lookup_found (key : α → Nat) {o : α} {i : Nat}
    (hp : ∀ x, p x → key x = i) (hf : ∀ x, p x → key (f x) = key x)
    (hnd : (l.map key).Nodup) (ho : o ∈ l) (hko : key o = i) (hpo : p o) :
    mongoFindOne (fun x => key x = i) (findOneAndUpdate p f l).2 = some (f o) := by
  induction l with
  | nil => cases ho
  | cons y ys ih =>
    rw [List.map_cons, List.nodup_cons] at hnd
    rcases List.mem_cons.mp ho with rfl | ho'
    · simp only [findOneAndUpdate]
      rw [if_pos hpo]
      simp only [mongoFindOne]
      rw [if_pos (by rw [hf o hpo, hko])]
    · have hyne : ¬ p y := fun hpy => hnd.1 (by
        rw [hp y hpy, ← hko]
        exact List.mem_map_of_mem key ho')
      simp only [findOneAndUpdate]
      rw [if_neg hyne]
      simp only [mongoFindOne]
      have hkyne : ¬ key y = i := fun h => hnd.1 (by
        rw [h, ← hko]
        exact List.mem_map_of_mem key ho')
      rw [if_neg hkyne]
      exact ih hnd.2 ho'

/-- With distinct keys and a key-guarded filter satisfied by the unique
element `o` with key `i`, every element of the updated collection carrying
key `i` is the updated `f o`. -/
theorem findOneAndUpdate_key_elems (key : α → Nat) {o : α} {i : Nat}
    (hp : ∀ x, p x → key x = i)
    (hnd : (l.map key).Nodup) (ho : o ∈ l) (hko : key o = i) (hpo : p o) :
    ∀ x ∈ (findOneAndUpdate p f l).2, key x = i → x = f o := by
  induction l with
  | nil => cases ho
  | cons y ys ih =>
    rw [List.map_cons, List.nodup_cons] at hnd
    rcases List.mem_cons.mp ho with rfl | ho'
    · simp only [findOneAndUpdate]
      rw [if_pos hpo]
      intro x hx hkx
      rcases List.mem_cons.mp hx with rfl | hx'
      · rfl
      · exact absurd (by rw [hko, ← hkx]; exact List.mem_map_of_mem key hx') hnd.1
    · have hyne : ¬ p y := fun hpy => hnd.1 (by
        rw [hp y hpy, ← hko]
        exact List.mem_map_of_mem key ho')
      simp only [findOneAndUpdate]
      rw [if_neg hyne]
      intro x hx hkx
      rcases List.mem_cons.mp hx with rfl | hx'
      · exfalso
        apply hnd.1
        rw [hkx, ← hko]
        exact List.mem_map_of_mem key ho'
      · exact ih hnd.2 ho' x hx' hkx

end MongoLemmas

/-! ## Lemmas about user lookups, saves, population and the debit fold -/

theorem findUserById_eq_some_inv {us : List User} {i : Nat} {u : User}
    (h : findUserById us i = some u) : u ∈ us ∧ u.uid = i :=
  mongoFindOne_eq_some_inv h

theorem findUserById_saveUser_self (us : List User) (u : User) :
    findUserById (saveUser us u) u.uid =
      (findUserById us u.uid).map (fun _ => u) := by
  unfold findUserById saveUser
  exact findOneAndUpdate_lookup_self (fun v : User => v.uid)
    (fun x => Iff.rfl) (fun x hx => hx.symm)

theorem findUserById_saveUser_other (us : List User) (u : User) {j : Nat}
    (hj : j ≠ u.uid) :
    findUserById (saveUser us u) j = findUserById us j := by
  unfold findUserById saveUser
  exact findOneAndUpdate_lookup_other (fun v : User => v.uid)
    (fun x hx => hx) (fun x hx => hx.symm) hj

theorem findOrderById_saveOrder_self (os : List Order) (o : Order) :
    findOrderById (saveOrder os o) o.oid =
      (findOrderById os o.oid).map (fun _ => o) := by
  unfold findOrderById saveOrder
  exact findOneAndUpdate_lookup_self (fun x : Order => x.oid)
    (fun x => Iff.rfl) (fun x hx => hx.symm)

theorem populateUsers_length {us : List User} {uos : List UserOrder}
    {parts : List User} (h : populateUsers us uos = some parts) :
    parts.length = uos.length := by
  induction uos generalizing parts with
  | nil => cases h; rfl
  | cons uo rest ih =>
    simp only [populateUsers] at h
    cases hu : findUserById us uo.user with
    | none => rw [hu] at h; cases h
    | some u =>
      rw [hu] at h
      cases hr : populateUsers us rest with
      | none => rw [hr] at h; cases h
      | some ps =>
        rw [hr] at h
        cases h
        simp [ih hr]

theorem populateUsers_keys {us : List User} {uos : List UserOrder}
    {parts : List User} (h : populateUsers us uos = some parts) :
    parts.map (fun u => u.uid) = uos.map (fun uo => uo.user) := by
  induction uos generalizing parts with
  | nil => cases h; rfl
  | cons uo rest ih =>
    simp only [populateUsers] at h
    cases hu : findUserById us uo.user with
    | none => rw [hu] at h; cases h
    | some u =>
      rw [hu] at h
      cases hr : populateUsers us rest with
      | none => rw [hr] at h; cases h
      | some ps =>
        rw [hr] at h
        cases h
        simp only [List.map_cons, ih hr, (findUserById_eq_some_inv hu).2]

theorem populateUsers_resolves {us : List User} {uos : List UserOrder}
    {parts : List User} (h : populateUsers us uos = some parts) :
    ∀ v ∈ parts, findUserById us v.uid = some v := by
  induction uos generalizing parts with
  | nil => cases h; intro v hv; cases hv
  | cons uo rest ih =>
    simp only [populateUsers] at h
    cases hu : findUserById us uo.user with
    | none => rw [hu] at h; cases h
    | some u =>
      rw [hu] at h
      cases hr : populateUsers us rest with
      | none => rw [hr] at h; cases h
      | some ps =>
        rw [hr] at h
        cases h
        intro v hv
        rcases List.mem_cons.mp hv with rfl | hv'
        · rw [(findUserById_eq_some_inv hu).2]; exact hu
        · exact ih hr v hv'

theorem populateUsers_covers {us : List User} {uos : List UserOrder}
    {parts : List User} (h : populateUsers us uos = some parts) :
    ∀ uo ∈ uos, ∃ v ∈ parts, findUserById us uo.user = some v ∧ v.uid = uo.user := by
  induction uos generalizing parts with
  | nil => intro uo huo; cases huo
  | cons uo0 rest ih =>
    simp only [populateUsers] at h
    cases hu : findUserById us uo0.user with
    | none => rw [hu] at h; cases h
    | some u =>
      rw [hu] at h
      cases hr : populateUsers us rest with
      | none => rw [hr] at h; cases h
      | some ps =>
        rw [hr] at h
        cases h
        intro uo huo
        rcases List.mem_cons.mp huo with rfl | huo'
        · exact ⟨u, List.mem_cons_self u ps, hu, (findUserById_eq_some_inv hu).2⟩
        · obtain ⟨v, hv, hfv, hvk⟩ := ih hr uo huo'
          exact ⟨v, List.mem_cons_of_mem u hv, hfv, hvk⟩

/-- The debit fold never touches the purchaser's document. -/
theorem settleDebits_lookup_purchaser (cost : Int) (pid : Nat)
    (parts us : List User) :
    findUserById (settleDebits cost pid parts us) pid = findUserById us pid := by
  induction parts generalizing us with
  | nil => rfl
  | cons w rest ih =>
    simp only [settleDebits, List.foldl_cons] at *
    by_cases hw : w.uid = pid
    · rw [if_pos hw]; exact ih us
    · rw [if_neg hw]
      rw [ih (saveUser us { w with coins := w.coins - cost })]
      exact findUserById_saveUser_other us _ (fun h => hw h.symm)

/-- The debit fold leaves lookups at ids outside the participant list
unchanged. -/
theorem settleDebits_lookup_other (cost : Int) (pid : Nat)
    {parts : List User} (us : List User) {j : Nat}
    (h : ∀ v ∈ parts, v.uid ≠ j) :
    findUserById (settleDebits cost pid parts us) j = findUserById us j := by
  induction parts generalizing us with
  | nil => rfl
  | cons w rest ih =>
    simp only [settleDebits, List.foldl_cons] at *
    by_cases hw : w.uid = pid
    · rw [if_pos hw]
      exact ih us (fun v hv => h v (List.mem_cons_of_mem w hv))
    · rw [if_neg hw]
      rw [ih (saveUser us { w with coins := w.coins - cost })
            (fun v hv => h v (List.mem_cons_of_mem w hv))]
      exact findUserById_saveUser_other us _
        (fun heq => h w (List.mem_cons_self w rest) heq.symm)

/-- A non-purchaser participant ends up with the populated balance minus
`cost`: the fold saves the decremented in-memory document. -/
theorem settleDebits_lookup_part (cost : Int) (pid : Nat)
    {parts : List User} (us : List User) {v : User}
    (hnd : (parts.map (fun u => u.uid)).Nodup)
    (hv : v ∈ parts) (hvp : v.uid ≠ pid)
    (hsome : (findUserById us v.uid).isSome) :
    findUserById (settleDebits cost pid parts us) v.uid =
      some { v with coins := v.coins - cost } := by
  induction parts generalizing us with
  | nil => cases hv
  | cons w rest ih =>
    rw [List.map_cons, List.nodup_cons] at hnd
    rcases List.mem_cons.mp hv with rfl | hv'
    · simp only [settleDebits, List.foldl_cons]
      rw [if_neg hvp]
      have hrest : ∀ x ∈ rest, x.uid ≠ v.uid := by
        intro x hx heq
        exact hnd.1 (heq ▸ List.mem_map_of_mem (fun u => u.uid) hx)
      have := settleDebits_lookup_other cost pid
        (saveUser us { v with coins := v.coins - cost }) hrest
      simp only [settleDebits] at this
      rw [this]
      have hself := findUserById_saveUser_self us { v with coins := v.coins - cost }
      simp only at hself
      rw [hself]
      cases hu : findUserById us v.uid with
      | none => rw [hu] at hsome; cases hsome
      | some u => simp
    · simp only [settleDebits, List.foldl_cons]
      by_cases hw : w.uid = pid
      · rw [if_pos hw]
        exact ih us hnd.2 hv' hsome
      · rw [if_neg hw]
        have hwv : w.uid ≠ v.uid := by
          intro heq
          exact hnd.1 (heq ▸ List.mem_map_of_mem (fun u => u.uid) hv')
        have hpre : findUserById (saveUser us { w with coins := w.coins - cost }) v.uid
            = findUserById us v.uid :=
          findUserById_saveUser_other us _ (fun heq => hwv heq.symm)
        exact ih _ hnd.2 hv' (by rw [hpre]; exact hsome)

/-! ## Ledger-entry arithmetic -/

theorem settleEntries_deltas (cost : Int) (pid : Nat) (parts : List User) :
    (settleEntries cost pid parts).map entryDelta =
      (parts.filter (fun u => ¬ u.uid = pid)).map (fun _ => -cost) := by
  unfold settleEntries
  rw [List.map_map]
  refine List.map_congr_left (fun u _ => ?_)
  simp only [Function.comp, entryDelta]
  ring

theorem sum_map_neg_const (cost : Int) (l : List User) :
    (l.map (fun _ => -cost)).sum = -(cost * (l.length : Int)) := by
  induction l with
  | nil => simp
  | cons x xs ih =>
    simp only [List.map_cons, List.sum_cons, ih, List.length_cons]
    push_cast
    ring

theorem entriesDelta_settleEntries (cost : Int) (pid : Nat) (parts : List User) :
    entriesDelta (settleEntries cost pid parts) =
      -(cost * (((parts.filter (fun u => ¬ u.uid = pid)).length : Int))) := by
  unfold entriesDelta
  rw [settleEntries_deltas, sum_map_neg_const]

theorem entriesDelta_cons (e : TransactionEntry) (es : List TransactionEntry) :
    entriesDelta (e :: es) = entryDelta e + entriesDelta es := by
  simp [entriesDelta]

theorem settleEntries_length_of_not_mem {parts : List User} {pid : Nat}
    (h : ∀ v ∈ parts, v.uid ≠ pid) :
    (settleEntries cost pid parts).length = parts.length := by
  unfold settleEntries
  rw [List.length_map]
  rw [List.filter_eq_self.mpr (fun v hv => by simpa using h v hv)]

theorem filter_ne_length_of_mem {parts : List User} {pid : Nat} {v : User}
    (hnd : (parts.map (fun u => u.uid)).Nodup) (hv : v ∈ parts)
    (hvp : v.uid = pid) :
    (parts.filter (fun u => ¬ u.uid = pid)).length + 1 = parts.length := by
  induction parts with
  | nil => cases hv
  | cons w rest ih =>
    rw [List.map_cons, List.nodup_cons] at hnd
    rcases List.mem_cons.mp hv with rfl | hv'
    · have hrest : ∀ x ∈ rest, x.uid ≠ pid := by
        intro x hx heq
        exact hnd.1 (by rw [hvp, ← heq]; exact List.mem_map_of_mem _ hx)
      rw [List.filter_cons_of_neg (by simp [hvp])]
      rw [List.filter_eq_self.mpr (fun x hx => by simpa using hrest x hx)]
      simp
    · have hw : w.uid ≠ pid := by
        intro heq
        exact hnd.1 (by rw [heq, ← hvp]; exact List.mem_map_of_mem _ hv')
      rw [List.filter_cons_of_pos (by simp [hw])]
      have := ih hnd.2 hv'
      simp only [List.length_cons]
      omega

/-! ## Forward computation of a successful settlement -/

/-- When the order resolves under the `Closed` filter, every participant
reference resolves, and the purchaser id resolves, `logOrder` commits and
the resulting database is given in closed form. -/
theorem logOrder_spec (db : Db) (orderId purchaserId : Nat) (now : Int)
    {o : Order} {parts : List User} {pu : User}
    (hndO : (db.orders.map (fun x => x.oid)).Nodup)
    (ho : o ∈ db.orders) (hoid : o.oid = orderId)
    (hst : o.state = OrderState.Closed)
    (hpop : populateUsers db.users o.userOrders = some parts)
    (hpu : findUserById db.users purchaserId = some pu) :
    logOrder db orderId purchaserId now = some
      { orders := saveOrder db.orders
          { o with state := OrderState.Archived, purchaser := some pu.uid }
        users := settleDebits o.cost pu.uid parts
          (findOneAndUpdate (fun u : User => u.uid = purchaserId)
            (fun u => { u with coins := u.coins + settleCredit o }) db.users).2
        transactions := db.transactions ++
          [{ description := "Logged order", date := now,
             entries := { user := pu.uid, previousValue := pu.coins,
                          newValue := pu.coins + settleCredit o } ::
               settleEntries o.cost pu.uid parts }]
        audits := db.audits ++ [{ date := now, log := "Logged order audit" }] } := by
  have hfind : mongoFindOne
      (fun x : Order => x.oid = orderId ∧ x.state = OrderState.Closed) db.orders
      = some o := by
    rw [mongoFindOne_keyed (fun x : Order => x.oid) (fun x hx => hx.1) hndO ho hoid]
    rw [if_pos ⟨hoid, hst⟩]
  have hfst : (findOneAndUpdate (fun u : User => u.uid = purchaserId)
      (fun u => { u with coins := u.coins + settleCredit o }) db.users).1
      = some pu := by
    rw [findOneAndUpdate_fst]; exact hpu
  unfold logOrder
  rw [hfind]
  dsimp only
  rw [hpop]
  dsimp only
  rw [hfst]

/-- Lookup of the purchaser after the whole settlement: the `$inc` credit
applies and the debit fold skips the purchaser. -/
theorem settle_lookup_purchaser (db : Db) {pu : User} (o : Order)
    (parts : List User)
    (hpu : findUserById db.users pu.uid = some pu) :
    findUserById (settleDebits o.cost pu.uid parts
        (findOneAndUpdate (fun u : User => u.uid = pu.uid)
          (fun u => { u with coins := u.coins + settleCredit o }) db.users).2)
      pu.uid = some { pu with coins := pu.coins + settleCredit o } := by
  rw [settleDebits_lookup_purchaser]
  have hself : mongoFindOne (fun x : User => x.uid = pu.uid)
      (findOneAndUpdate (fun u : User => u.uid = pu.uid)
        (fun u => { u with coins := u.coins + settleCredit o }) db.users).2 =
      (mongoFindOne (fun x : User => x.uid = pu.uid) db.users).map
        (fun u => { u with coins := u.coins + settleCredit o }) :=
    findOneAndUpdate_lookup_self (fun u : User => u.uid)
      (fun x => Iff.rfl) (fun x _ => rfl)
  unfold findUserById at hpu ⊢
  rw [hself, hpu]
  rfl

/-- C1. For every settlement of a Closed order with per-participant cost
`c = o.cost` and `n = o.userOrders.length` participants, the chosen
purchaser's balance increases by exactly `c * (n − 1)` and every
participant other than the purchaser has their balance decreased by
exactly `c`; the one created LedgerEntry carries the purchaser delta
`c * (n − 1)` followed by one delta `−c` per non-purchaser participant
(for the spec's scenario — cost 5, participants A, B, C, purchaser A —
the witness evaluates the deltas to +10, −5, −5 over exactly three
entries). -/
theorem settlement_purchaser_credit_and_participant_debits
    (db : Db) (orderId purchaserId : Nat) (now : Int)
    (o : Order) (parts : List User) (pu : User)
    (hndO : (db.orders.map (fun x => x.oid)).Nodup)
    (ho : o ∈ db.orders) (hoid : o.oid = orderId)
    (hst : o.state = OrderState.Closed)
    (hpop : populateUsers db.users o.userOrders = some parts)
    (hpnd : (o.userOrders.map (fun uo => uo.user)).Nodup)
    (hpu : findUserById db.users purchaserId = some pu) :
    ∃ db', logOrder db orderId purchaserId now = some db' ∧
      findUserById db'.users purchaserId =
        some { pu with coins :=
          pu.coins + o.cost * ((o.userOrders.length : Int) - 1) } ∧
      (∀ uo ∈ o.userOrders, uo.user ≠ purchaserId →
        ∃ u, findUserById db.users uo.user = some u ∧
          findUserById db'.users uo.user =
            some { u with coins := u.coins - o.cost }) ∧
      (∃ t, db'.transactions = db.transactions ++ [t] ∧
        t.entries.map entryDelta =
          (o.cost * ((o.userOrders.length : Int) - 1)) ::
            (parts.filter (fun u => ¬ u.uid = purchaserId)).map
              (fun _ => -o.cost)) := by
  obtain ⟨hpm, hpuid⟩ := findUserById_eq_some_inv hpu
  subst hpuid
  refine ⟨_, logOrder_spec db orderId pu.uid now hndO ho hoid hst hpop hpu,
    ?_, ?_, ?_⟩
  · exact settle_lookup_purchaser db o parts hpu
  · intro uo huo hne
    obtain ⟨v, hvparts, hfv, hvk⟩ := populateUsers_covers hpop uo huo
    refine ⟨v, hfv, ?_⟩
    have hndparts : (parts.map (fun u => u.uid)).Nodup := by
      rw [populateUsers_keys hpop]; exact hpnd
    have hvne : v.uid ≠ pu.uid := by rw [hvk]; exact hne
    have hother : findUserById
        (findOneAndUpdate (fun u : User => u.uid = pu.uid)
          (fun u => { u with coins := u.coins + settleCredit o }) db.users).2
        v.uid = findUserById db.users v.uid :=
      findOneAndUpdate_lookup_other (fun u : User => u.uid)
        (fun x hx => hx) (fun x _ => rfl) hvne
    have hres := populateUsers_resolves hpop v hvparts
    have := settleDebits_lookup_part o.cost pu.uid
      (findOneAndUpdate (fun u : User => u.uid = pu.uid)
        (fun u => { u with coins := u.coins + settleCredit o }) db.users).2
      hndparts hvparts hvne (by rw [hother, hres]; rfl)
    rw [← hvk]
    exact this
  · refine ⟨_, rfl, ?_⟩
    rw [List.map_cons, settleEntries_deltas]
    have : entryDelta
        { user := pu.uid
          previousValue := pu.coins
          newValue := pu.coins + settleCredit o } = settleCredit o := by
      simp [entryDelta]
    rw [this]
    rfl

/-- Scenario database for the C1 witness: users A, B, C with balance 0 and
one Closed order of cost 5 joined by all three. -/
def c1pu : User := { uid := 1, coins := 0, enabled := true }

def c1o : Order :=
  { oid := 1, openDate := 0, closeDate := 10, location := "Chicken",
    description := "d", cost := 5, state := OrderState.Closed,
    userOrders := [{ user := 1, details := [] }, { user := 2, details := [] },
                   { user := 3, details := [] }],
    purchaser := none }

def c1parts : List User :=
  [{ uid := 1, coins := 0, enabled := true },
   { uid := 2, coins := 0, enabled := true },
   { uid := 3, coins := 0, enabled := true }]

def c1db : Db :=
  { orders := [c1o], users := c1parts, transactions := [], audits := [] }

/-- Witness for C1 at the spec's scenario: cost 5, participants A, B, C,
purchaser A; the settlement yields deltas +10, −5, −5 in one three-entry
LedgerEntry. -/
theorem settlement_purchaser_credit_and_participant_debits_witness :
    ((c1db.orders.map (fun x => x.oid)).Nodup ∧
     c1o ∈ c1db.orders ∧ c1o.oid = 1 ∧ c1o.state = OrderState.Closed ∧
     populateUsers c1db.users c1o.userOrders = some c1parts ∧
     (c1o.userOrders.map (fun uo => uo.user)).Nodup ∧
     findUserById c1db.users 1 = some c1pu) ∧
    (∃ db', logOrder c1db 1 1 0 = some db' ∧
      findUserById db'.users 1 =
        some { c1pu with coins :=
          c1pu.coins + c1o.cost * ((c1o.userOrders.length : Int) - 1) } ∧
      (∀ uo ∈ c1o.userOrders, uo.user ≠ 1 →
        ∃ u, findUserById c1db.users uo.user = some u ∧
          findUserById db'.users uo.user =
            some { u with coins := u.coins - c1o.cost }) ∧
      (∃ t, db'.transactions = c1db.transactions ++ [t] ∧
        t.entries.map entryDelta =
          (c1o.cost * ((c1o.userOrders.length : Int) - 1)) ::
            (c1parts.filter (fun u => ¬ u.uid = 1)).map
              (fun _ => -c1o.cost))) ∧
    (logOrder c1db 1 1 0).map
        (fun db' => db'.transactions.map (fun t => t.entries.map entryDelta)) =
      some [[(10 : Int), -5, -5]] :=
  ⟨⟨by decide, by decide, by decide, by decide, by decide, by decide, by decide⟩,
   settlement_purchaser_credit_and_participant_debits c1db 1 1 0 c1o c1parts c1pu
     (by decide) (by decide) (by decide) (by decide) (by decide) (by decide)
     (by decide),
   by decide⟩

/-- C10. Settlement does not require the purchaser to be a participant:
for any Closed order with `n` participants and a purchaser id resolving to
an existing user outside the participant list, settlement succeeds, that
user is credited `cost * (n − 1)`, every one of the `n` participants is
debited `cost`, the order is archived with the purchaser recorded, and the
one LedgerEntry has `n + 1` entries. -/
theorem settlement_with_non_participant_purchaser
    (db : Db) (orderId purchaserId : Nat) (now : Int)
    (o : Order) (parts : List User) (pu : User)
    (hndO : (db.orders.map (fun x => x.oid)).Nodup)
    (ho : o ∈ db.orders) (hoid : o.oid = orderId)
    (hst : o.state = OrderState.Closed)
    (hpop : populateUsers db.users o.userOrders = some parts)
    (hpnd : (o.userOrders.map (fun uo => uo.user)).Nodup)
    (hpu : findUserById db.users purchaserId = some pu)
    (hnp : ∀ uo ∈ o.userOrders, uo.user ≠ purchaserId) :
    ∃ db', logOrder db orderId purchaserId now = some db' ∧
      findUserById db'.users purchaserId =
        some { pu with coins :=
          pu.coins + o.cost * ((o.userOrders.length : Int) - 1) } ∧
      (∀ uo ∈ o.userOrders,
        ∃ u, findUserById db.users uo.user = some u ∧
          findUserById db'.users uo.user =
            some { u with coins := u.coins - o.cost }) ∧
      findOrderById db'.orders orderId =
        some { o with state := OrderState.Archived, purchaser := some pu.uid } ∧
      (∃ t, db'.transactions = db.transactions ++ [t] ∧
        t.entries.length = o.userOrders.length + 1) := by
  obtain ⟨hpm, hpuid⟩ := findUserById_eq_some_inv hpu
  subst hpuid
  have hpartsne : ∀ v ∈ parts, v.uid ≠ pu.uid := by
    intro v hv heq
    have hkeys := populateUsers_keys hpop
    have : v.uid ∈ o.userOrders.map (fun uo => uo.user) := by
      rw [← hkeys]
      exact List.mem_map_of_mem _ hv
    obtain ⟨uo, huo, huoeq⟩ := List.mem_map.mp this
    exact hnp uo huo (by rw [huoeq, heq])
  refine ⟨_, logOrder_spec db orderId pu.uid now hndO ho hoid hst hpop hpu,
    ?_, ?_, ?_, ?_⟩
  · exact settle_lookup_purchaser db o parts hpu
  · intro uo huo
    obtain ⟨v, hvparts, hfv, hvk⟩ := populateUsers_covers hpop uo huo
    refine ⟨v, hfv, ?_⟩
    have hndparts : (parts.map (fun u => u.uid)).Nodup := by
      rw [populateUsers_keys hpop]; exact hpnd
    have hvne : v.uid ≠ pu.uid := hpartsne v hvparts
    have hother : findUserById
        (findOneAndUpdate (fun u : User => u.uid = pu.uid)
          (fun u => { u with coins := u.coins + settleCredit o }) db.users).2
        v.uid = findUserById db.users v.uid :=
      findOneAndUpdate_lookup_other (fun u : User => u.uid)
        (fun x hx => hx) (fun x _ => rfl) hvne
    have hres := populateUsers_resolves hpop v hvparts
    have := settleDebits_lookup_part o.cost pu.uid
      (findOneAndUpdate (fun u : User => u.uid = pu.uid)
        (fun u => { u with coins := u.coins + settleCredit o }) db.users).2
      hndparts hvparts hvne (by rw [hother, hres]; rfl)
    rw [← hvk]
    exact this
  · have hlook : findOrderById db.orders o.oid = some o := by
      unfold findOrderById
      rw [mongoFindOne_keyed (fun x : Order => x.oid) (fun x hx => hx) hndO ho rfl]
      rw [if_pos rfl]
    subst hoid
    have hsave := findOrderById_saveOrder_self db.orders
      { o with state := OrderState.Archived, purchaser := some pu.uid }
    simp only at hsave
    rw [hsave, hlook]
    rfl
  · refine ⟨_, rfl, ?_⟩
    show (_ :: settleEntries o.cost pu.uid parts).length = _
    rw [List.length_cons, settleEntries_length_of_not_mem hpartsne,
      populateUsers_length hpop]

/-- Scenario for the C10 witness: purchaser (uid 9) is not among the two
participants (uids 2 and 3) of a Closed cost-5 order. -/
def c10pu : User := { uid := 9, coins := 0, enabled := true }

def c10o : Order :=
  { oid := 1, openDate := 0, closeDate := 10, location := "Chicken",
    description := "d", cost := 5, state := OrderState.Closed,
    userOrders := [{ user := 2, details := [] }, { user := 3, details := [] }],
    purchaser := none }

def c10parts : List User :=
  [{ uid := 2, coins := 0, enabled := true },
   { uid := 3, coins := 0, enabled := true }]

def c10db : Db :=
  { orders := [c10o], users := c10pu :: c10parts, transactions := [],
    audits := [] }

/-- Witness for C10: the non-participant purchaser settlement succeeds; the
purchaser is credited 5, both participants are debited 5, the order is
archived and the LedgerEntry has 3 = 2 + 1 entries. -/
theorem settlement_with_non_participant_purchaser_witness :
    ((c10db.orders.map (fun x => x.oid)).Nodup ∧
     c10o ∈ c10db.orders ∧ c10o.oid = 1 ∧ c10o.state = OrderState.Closed ∧
     populateUsers c10db.users c10o.userOrders = some c10parts ∧
     (c10o.userOrders.map (fun uo => uo.user)).Nodup ∧
     findUserById c10db.users 9 = some c10pu ∧
     (∀ uo ∈ c10o.userOrders, uo.user ≠ 9)) ∧
    (∃ db', logOrder c10db 1 9 0 = some db' ∧
      findUserById db'.users 9 =
        some { c10pu with coins :=
          c10pu.coins + c10o.cost * ((c10o.userOrders.length : Int) - 1) } ∧
      (∀ uo ∈ c10o.userOrders,
        ∃ u, findUserById c10db.users uo.user = some u ∧
          findUserById db'.users uo.user =
            some { u with coins := u.coins - c10o.cost }) ∧
      findOrderById db'.orders 1 =
        some { c10o with state := OrderState.Archived, purchaser := some c10pu.uid } ∧
      (∃ t, db'.transactions = c10db.transactions ++ [t] ∧
        t.entries.length = c10o.userOrders.length + 1)) :=
  ⟨⟨by decide, by decide, by decide, by decide, by decide, by decide,
    by decide, by decide⟩,
   settlement_with_non_participant_purchaser c10db 1 9 0 c10o c10parts c10pu
     (by decide) (by decide) (by decide) (by decide) (by decide) (by decide)
     (by decide) (by decide)⟩

/-- C2 counterexample.  The claim states that every settlement LedgerEntry
sums to zero for any valid purchaser, including one who is not a
participant.  On the code, settling the Closed cost-5 order of `c10db`
(one relevant participant list `[2]` is not even needed — here both
participants are debited 5 while the outside purchaser is credited
`5 * (2 − 1) = 5`, so the sum is `5 − 5 − 5 = −5 ≠ 0`). -/
theorem settlement_nonparticipant_purchaser_breaks_conservation :
    findUserById c10db.users 9 = some c10pu ∧
    (¬ (9 : Nat) ∈ c10o.userOrders.map (fun uo => uo.user)) ∧
    (logOrder c10db 1 9 0).map
        (fun db' => db'.transactions.map (fun t => entriesDelta t.entries)) =
      some [-5] ∧
    ¬ (-5 : Int) = 0 := by decide

/-- C2 (amended).  A settlement LedgerEntry conserves coins exactly when
the chosen purchaser is among the order's participants; when the purchaser
is not a participant the entry sums to `−cost`.  A forced coin adjustment
(`setCoins`) creates a single-entry LedgerEntry recording old and new
value, with no conservation constraint. -/
theorem settlement_conservation_amended :
    (∀ (db : Db) (orderId purchaserId : Nat) (now : Int) (o : Order)
        (parts : List User) (pu : User),
      (db.orders.map (fun x => x.oid)).Nodup →
      o ∈ db.orders → o.oid = orderId → o.state = OrderState.Closed →
      populateUsers db.users o.userOrders = some parts →
      (o.userOrders.map (fun uo => uo.user)).Nodup →
      findUserById db.users purchaserId = some pu →
      purchaserId ∈ o.userOrders.map (fun uo => uo.user) →
      ∃ db' t, logOrder db orderId purchaserId now = some db' ∧
        db'.transactions = db.transactions ++ [t] ∧
        entriesDelta t.entries = 0) ∧
    (∀ (db : Db) (orderId purchaserId : Nat) (now : Int) (o : Order)
        (parts : List User) (pu : User),
      (db.orders.map (fun x => x.oid)).Nodup →
      o ∈ db.orders → o.oid = orderId → o.state = OrderState.Closed →
      populateUsers db.users o.userOrders = some parts →
      findUserById db.users purchaserId = some pu →
      (¬ purchaserId ∈ o.userOrders.map (fun uo => uo.user)) →
      ∃ db' t, logOrder db orderId purchaserId now = some db' ∧
        db'.transactions = db.transactions ++ [t] ∧
        entriesDelta t.entries = -o.cost) ∧
    (∀ (db2 : Db) (targetId : Nat) (v now2 : Int) (u : User),
      findUserById db2.users targetId = some u →
      ∃ t, (setCoins db2 targetId v now2).transactions =
          db2.transactions ++ [t] ∧
        t.entries = [{ user := u.uid, previousValue := u.coins,
                       newValue := v }]) := by
  refine ⟨?_, ?_, ?_⟩
  · intro db orderId purchaserId now o parts pu hndO ho hoid hst hpop hpnd hpu hmem
    obtain ⟨hpm, hpuid⟩ := findUserById_eq_some_inv hpu
    subst hpuid
    refine ⟨_, _, logOrder_spec db orderId pu.uid now hndO ho hoid hst hpop hpu,
      rfl, ?_⟩
    rw [entriesDelta_cons, entriesDelta_settleEntries]
    have hpe : entryDelta
        { user := pu.uid
          previousValue := pu.coins
          newValue := pu.coins + settleCredit o } = settleCredit o := by
      simp [entryDelta]
    rw [hpe]
    have hkeys := populateUsers_keys hpop
    have hmem' : pu.uid ∈ parts.map (fun u => u.uid) := by
      rw [hkeys]; exact hmem
    obtain ⟨v, hvparts, hveq⟩ := List.mem_map.mp hmem'
    have hndparts : (parts.map (fun u => u.uid)).Nodup := by
      rw [hkeys]; exact hpnd
    have hk := filter_ne_length_of_mem hndparts hvparts hveq
    have hn := populateUsers_length hpop
    unfold settleCredit
    have hcast : ((parts.filter (fun u => ¬ u.uid = pu.uid)).length : Int) =
        (o.userOrders.length : Int) - 1 := by
      omega
    rw [hcast]
    ring
  · intro db orderId purchaserId now o parts pu hndO ho hoid hst hpop hpu hmem
    obtain ⟨hpm, hpuid⟩ := findUserById_eq_some_inv hpu
    subst hpuid
    refine ⟨_, _, logOrder_spec db orderId pu.uid now hndO ho hoid hst hpop hpu,
      rfl, ?_⟩
    rw [entriesDelta_cons, entriesDelta_settleEntries]
    have hpe : entryDelta
        { user := pu.uid
          previousValue := pu.coins
          newValue := pu.coins + settleCredit o } = settleCredit o := by
      simp [entryDelta]
    rw [hpe]
    have hkeys := populateUsers_keys hpop
    have hall : ∀ v ∈ parts, v.uid ≠ pu.uid := by
      intro v hv heq
      apply hmem
      rw [← hkeys]
      exact heq ▸ List.mem_map_of_mem _ hv
    have hfilter : parts.filter (fun u => ¬ u.uid = pu.uid) = parts :=
      List.filter_eq_self.mpr (fun v hv => by simpa using hall v hv)
    rw [hfilter]
    have hn := populateUsers_length hpop
    unfold settleCredit
    rw [hn]
    ring
  · intro db2 targetId v now2 u hu
    have hfst : (findOneAndUpdate (fun x : User => x.uid = targetId)
        (fun x => { x with coins := v }) db2.users).1 = some u := by
      rw [findOneAndUpdate_fst]; exact hu
    unfold setCoins
    dsimp only
    rw [hfst]
    exact ⟨_, rfl, rfl⟩

/-- Witness for the amended C2: conservation holds at the C1 scenario
(purchaser A participates: sum 0), the non-participant purchaser of the
C10 scenario yields sum −cost = −5, and a forced adjustment to 42 creates
a single old/new entry. -/
theorem settlement_conservation_amended_witness :
    (∃ db' t, logOrder c1db 1 1 0 = some db' ∧
      db'.transactions = c1db.transactions ++ [t] ∧
      entriesDelta t.entries = 0) ∧
    (∃ db' t, logOrder c10db 1 9 0 = some db' ∧
      db'.transactions = c10db.transactions ++ [t] ∧
      entriesDelta t.entries = -c10o.cost) ∧
    (∃ t, (setCoins c1db 1 42 0).transactions = c1db.transactions ++ [t] ∧
      t.entries = [{ user := 1, previousValue := 0, newValue := 42 }]) :=
  ⟨settlement_conservation_amended.1 c1db 1 1 0 c1o c1parts c1pu
     (by decide) (by decide) (by decide) (by decide) (by decide) (by decide)
     (by decide) (by decide),
   settlement_conservation_amended.2.1 c10db 1 9 0 c10o c10parts c10pu
     (by decide) (by decide) (by decide) (by decide) (by decide) (by decide)
     (by decide),
   settlement_conservation_amended.2.2 c1db 1 42 0
     { uid := 1, coins := 0, enabled := true } (by decide)⟩

/-- C3. If any step of the settlement before commit fails — the order id
does not resolve under the `Closed` state filter, the purchaser id does
not resolve to a user, or, in general, whenever the modelled transaction
rejects (`logOrder … = none`, covering any enclosed write throwing) — the
whole transaction is aborted and the observable database is unchanged: no
balance change, no LedgerEntry, no AuditEntry, no order state change. -/
theorem settlement_abort_leaves_db_unchanged :
    (∀ (db : Db) (orderId purchaserId : Nat) (now : Int),
      (∀ x ∈ db.orders, ¬ (x.oid = orderId ∧ x.state = OrderState.Closed)) →
      applyLogOrder db orderId purchaserId now = db) ∧
    (∀ (db : Db) (orderId purchaserId : Nat) (now : Int),
      findUserById db.users purchaserId = none →
      applyLogOrder db orderId purchaserId now = db) ∧
    (∀ (db : Db) (orderId purchaserId : Nat) (now : Int),
      logOrder db orderId purchaserId now = none →
      applyLogOrder db orderId purchaserId now = db) := by
  refine ⟨?_, ?_, ?_⟩
  · intro db orderId purchaserId now h
    unfold applyLogOrder logOrder
    rw [mongoFindOne_eq_none_of h]
    rfl
  · intro db orderId purchaserId now h
    unfold applyLogOrder logOrder
    cases hfind : mongoFindOne
        (fun o : Order => o.oid = orderId ∧ o.state = OrderState.Closed)
        db.orders with
    | none => rfl
    | some o =>
      cases hpop : populateUsers db.users o.userOrders with
      | none =>
        dsimp only
        rw [hpop]
        rfl
      | some parts =>
        have hfst : (findOneAndUpdate (fun u : User => u.uid = purchaserId)
            (fun u => { u with coins := u.coins + settleCredit o })
            db.users).1 = none := by
          rw [findOneAndUpdate_fst]; exact h
        dsimp only
        rw [hpop]
        dsimp only
        rw [hfst]
        rfl
  · intro db orderId purchaserId now h
    unfold applyLogOrder
    rw [h]
    rfl

/-- One-order, one-user database for the C3 witness. -/
def c3db : Db :=
  { orders := [c1o], users := [c1pu], transactions := [], audits := [] }

/-- Witness for C3: an order id that does not resolve under the `Closed`
filter (id 2), a purchaser id resolving to no user (id 7), and a rejected
run all leave the database exactly as it was. -/
theorem settlement_abort_leaves_db_unchanged_witness :
    ((∀ x ∈ c3db.orders, ¬ (x.oid = 2 ∧ x.state = OrderState.Closed)) ∧
      applyLogOrder c3db 2 1 0 = c3db) ∧
    (findUserById c3db.users 7 = none ∧ applyLogOrder c3db 1 7 0 = c3db) ∧
    (logOrder c3db 1 7 0 = none ∧ applyLogOrder c3db 1 7 0 = c3db) :=
  ⟨⟨by decide, settlement_abort_leaves_db_unchanged.1 c3db 2 1 0 (by decide)⟩,
   ⟨by decide, settlement_abort_leaves_db_unchanged.2.1 c3db 1 7 0 (by decide)⟩,
   ⟨by decide, settlement_abort_leaves_db_unchanged.2.2 c3db 1 7 0 (by decide)⟩⟩

/-! ## Provenance of `Archived` orders -/

/-- An `Archived` order found in an unchanged collection was already
there. -/
theorem archived_from_same {l : List Order} :
    ∀ o' ∈ l, o'.state = OrderState.Archived →
      ∃ o ∈ l, o.oid = o'.oid ∧ o.state = OrderState.Archived :=
  fun o' h hs => ⟨o', h, rfl, hs⟩

/-- A conditional update whose written states are never `Archived` cannot
produce a new `Archived` order. -/
theorem archived_from_FOU {p : Order → Prop} [DecidablePred p]
    {f : Order → Order} {l : List Order}
    (hf : ∀ x, p x → ¬ (f x).state = OrderState.Archived) :
    ∀ o' ∈ (findOneAndUpdate p f l).2, o'.state = OrderState.Archived →
      ∃ o ∈ l, o.oid = o'.oid ∧ o.state = OrderState.Archived := by
  intro o' ho' hst
  rcases findOneAndUpdate_mem ho' with hm | ⟨y, hy, hpy, hfy⟩
  · exact ⟨o', hm, rfl, hst⟩
  · exact absurd (hfy ▸ hst) (hf y hpy)

/-- The forced coin adjustment never touches the orders collection. -/
theorem setCoins_orders (db : Db) (targetId : Nat) (v now : Int) :
    (setCoins db targetId v now).orders = db.orders := by
  unfold setCoins
  dsimp only
  split <;> rfl

/-- The coin transfer never touches the orders collection. -/
theorem transferCoins_orders (db : Db) (sourceId targetId : Nat)
    (coins now : Int) :
    ((transferCoins db sourceId targetId coins now).1).orders = db.orders := by
  unfold transferCoins
  dsimp only
  split
  · rfl
  · split
    · rfl
    · split
      · rfl
      · split
        · rfl
        · split
          · rfl
          · rfl

/-- C4. Settlement is at-most-once: (1) a successful settlement implies
the order resolved under the `Closed` state filter; (2) after a successful
settlement the order is `Archived`, so a second settlement attempt on the
same order fails and applies no change at all; (3) no modelled operation
other than settlement can turn a non-`Archived` order `Archived`. -/
theorem settlement_at_most_once_and_archived_only_by_settlement :
    (∀ (db : Db) (orderId purchaserId : Nat) (now : Int) (db' : Db),
      logOrder db orderId purchaserId now = some db' →
      ∃ o, o ∈ db.orders ∧ o.oid = orderId ∧ o.state = OrderState.Closed) ∧
    (∀ (db : Db) (orderId purchaserId purchaserId2 : Nat) (now now2 : Int)
        (o : Order) (parts : List User) (pu : User),
      (db.orders.map (fun x => x.oid)).Nodup →
      o ∈ db.orders → o.oid = orderId → o.state = OrderState.Closed →
      populateUsers db.users o.userOrders = some parts →
      findUserById db.users purchaserId = some pu →
      ∃ db', logOrder db orderId purchaserId now = some db' ∧
        (∃ o', findOrderById db'.orders orderId = some o' ∧
          o'.state = OrderState.Archived) ∧
        logOrder db' orderId purchaserId2 now2 = none ∧
        applyLogOrder db' orderId purchaserId2 now2 = db') ∧
    (∀ (orderTypes : List OrderType) (db : Db) (op : Op),
      Op.isSettle op = false →
      ∀ o' ∈ (applyOp orderTypes db op).orders,
        o'.state = OrderState.Archived →
        ∃ o ∈ db.orders, o.oid = o'.oid ∧ o.state = OrderState.Archived) := by
  refine ⟨?_, ?_, ?_⟩
  · intro db orderId purchaserId now db' hlog
    unfold logOrder at hlog
    cases hfind : mongoFindOne
        (fun o : Order => o.oid = orderId ∧ o.state = OrderState.Closed)
        db.orders with
    | none =>
      rw [hfind] at hlog
      exact Option.noConfusion hlog
    | some o =>
      obtain ⟨hm, hp⟩ := mongoFindOne_eq_some_inv hfind
      exact ⟨o, hm, hp.1, hp.2⟩
  · intro db orderId purchaserId purchaserId2 now now2 o parts pu
      hndO ho hoid hst hpop hpu
    obtain ⟨hpm, hpuid⟩ := findUserById_eq_some_inv hpu
    subst hpuid
    subst hoid
    have hspec := logOrder_spec db o.oid pu.uid now hndO ho rfl hst hpop hpu
    have harch2 : ∀ x ∈ saveOrder db.orders
        { o with state := OrderState.Archived, purchaser := some pu.uid },
        x.oid = o.oid →
        x = { o with state := OrderState.Archived, purchaser := some pu.uid } :=
      findOneAndUpdate_key_elems (fun x : Order => x.oid)
        (fun x hx => hx) hndO ho rfl rfl
    have hnone : mongoFindOne
        (fun x : Order => x.oid = o.oid ∧ x.state = OrderState.Closed)
        (saveOrder db.orders
          { o with state := OrderState.Archived, purchaser := some pu.uid })
        = none := by
      apply mongoFindOne_eq_none_of
      intro x hx hcontra
      have hxa := harch2 x hx hcontra.1
      rw [hxa] at hcontra
      exact OrderState.noConfusion hcontra.2
    have hlog2 : ∀ db2 : Db,
        db2.orders = saveOrder db.orders
          { o with state := OrderState.Archived, purchaser := some pu.uid } →
        ∀ (pid2 : Nat) (t2 : Int), logOrder db2 o.oid pid2 t2 = none := by
      intro db2 h2 pid2 t2
      unfold logOrder
      rw [h2, hnone]
    refine ⟨_, hspec, ?_, hlog2 _ rfl purchaserId2 now2, ?_⟩
    · have hlook : findOrderById db.orders o.oid = some o := by
        unfold findOrderById
        rw [mongoFindOne_keyed (fun x : Order => x.oid) (fun x hx => hx)
          hndO ho rfl]
        rw [if_pos rfl]
      have hsave := findOrderById_saveOrder_self db.orders
        { o with state := OrderState.Archived, purchaser := some pu.uid }
      simp only at hsave
      refine ⟨{ o with state := OrderState.Archived, purchaser := some pu.uid },
        ?_, rfl⟩
      dsimp only
      rw [hsave, hlook]
      rfl
    · unfold applyLogOrder
      rw [hlog2 _ rfl purchaserId2 now2]
      rfl
  · intro orderTypes db op hset
    cases op with
    | logOp a b c => simp [Op.isSettle] at hset
    | joinOp orderId userId body =>
      intro o' ho' hst
      unfold applyOp joinOrder at ho'
      dsimp only at ho'
      split at ho'
      · exact archived_from_same o' ho' hst
      · rename_i order hfind
        split at ho'
        · exact archived_from_same o' ho' hst
        · rename_i thisOrderType htype
          split at ho'
          · exact archived_from_same o' ho' hst
          · rename_i details hdet
            dsimp only at ho'
            unfold saveOrder at ho'
            obtain ⟨hm, hp⟩ := mongoFindOne_eq_some_inv hfind
            refine archived_from_FOU ?_ o' ho' hst
            intro x hx heq
            rcases hp.2.1 with hs | hs <;>
              (dsimp only at heq; rw [hs] at heq; exact OrderState.noConfusion heq)
    | leaveOp orderId userId =>
      intro o' ho' hst
      unfold applyOp leaveOrder at ho'
      dsimp only at ho'
      split at ho'
      · exact archived_from_same o' ho' hst
      · rename_i u hr
        dsimp only at ho'
        refine archived_from_FOU ?_ o' ho' hst
        intro x hx heq
        dsimp only at heq
        rcases hx.2.1 with hs | hs <;>
          (rw [hs] at heq; exact OrderState.noConfusion heq)
    | closeOp orderId now =>
      intro o' ho' hst
      unfold applyOp closeOrderJob at ho'
      dsimp only at ho'
      cases hc : closeOrderById db orderId now with
      | none =>
        rw [hc] at ho'
        exact archived_from_same o' ho' hst
      | some db2 =>
        rw [hc] at ho'
        unfold closeOrderById at hc
        split at hc
        · exact Option.noConfusion hc
        · rename_i order hfind
          injection hc with hc
          subst hc
          simp only [Option.getD] at ho'
          unfold saveOrder at ho'
          refine archived_from_FOU ?_ o' ho' hst
          intro x hx heq
          dsimp only at heq
          split at heq <;> exact OrderState.noConfusion heq
    | cancelOp orderId now =>
      intro o' ho' hst
      unfold applyOp cancelOrder at ho'
      dsimp only at ho'
      refine archived_from_FOU ?_ o' ho' hst
      intro x hx heq
      exact OrderState.noConfusion heq
    | createOp newId typeName closeDate now timeout =>
      intro o' ho' hst
      unfold applyOp createOrder at ho'
      dsimp only at ho'
      rcases List.mem_append.mp ho' with hm | hm
      · exact ⟨o', hm, rfl, hst⟩
      · rw [List.mem_singleton.mp hm] at hst
        exact OrderState.noConfusion hst
    | closingJobOp orderId fireTime timeout =>
      intro o' ho' hst
      unfold applyOp closingOrderJob at ho'
      dsimp only at ho'
      split at ho'
      · dsimp only at ho'
        refine archived_from_FOU ?_ o' ho' hst
        intro x hx heq
        exact OrderState.noConfusion heq
      · split at ho' <;>
          (dsimp only at ho'
           refine archived_from_FOU ?_ o' ho' hst
           intro x hx heq
           exact OrderState.noConfusion heq)
    | setCoinsOp userId coins now =>
      intro o' ho' hst
      rw [show (applyOp orderTypes db (Op.setCoinsOp userId coins now)).orders
          = db.orders from setCoins_orders db userId coins now] at ho'
      exact archived_from_same o' ho' hst
    | transferOp sourceId targetId coins now =>
      intro o' ho' hst
      rw [show (applyOp orderTypes db
            (Op.transferOp sourceId targetId coins now)).orders
          = db.orders from transferCoins_orders db sourceId targetId coins now]
        at ho'
      exact archived_from_same o' ho' hst

/-- Witness for C4 at the C1 scenario: the first settlement commits, the
order comes out `Archived`, a second settlement attempt (as any purchaser,
here user 2) returns `none` and leaves the database untouched, and a
non-settlement operation (cancel) cannot manufacture an `Archived`
order. -/
theorem settlement_at_most_once_witness :
    (logOrder c1db 1 1 0 = some (applyLogOrder c1db 1 1 0) ∧
     (∃ o, o ∈ c1db.orders ∧ o.oid = 1 ∧ o.state = OrderState.Closed)) ∧
    ((c1db.orders.map (fun x => x.oid)).Nodup ∧
     c1o ∈ c1db.orders ∧ c1o.oid = 1 ∧ c1o.state = OrderState.Closed ∧
     populateUsers c1db.users c1o.userOrders = some c1parts ∧
     findUserById c1db.users 1 = some c1pu ∧
     (∃ db', logOrder c1db 1 1 0 = some db' ∧
       (∃ o', findOrderById db'.orders 1 = some o' ∧
         o'.state = OrderState.Archived) ∧
       logOrder db' 1 2 1 = none ∧
       applyLogOrder db' 1 2 1 = db')) ∧
    (Op.isSettle (Op.cancelOp 1 0) = false ∧
     ∀ o' ∈ (applyOp [] c1db (Op.cancelOp 1 0)).orders,
       o'.state = OrderState.Archived →
       ∃ o ∈ c1db.orders, o.oid = o'.oid ∧ o.state = OrderState.Archived) :=
  ⟨⟨by decide,
    settlement_at_most_once_and_archived_only_by_settlement.1 c1db 1 1 0
      (applyLogOrder c1db 1 1 0) (by decide)⟩,
   ⟨by decide, by decide, by decide, by decide, by decide, by decide,
    settlement_at_most_once_and_archived_only_by_settlement.2.1 c1db 1 1 2 0 1
      c1o c1parts c1pu (by decide) (by decide) (by decide) (by decide)
      (by decide) (by decide)⟩,
   ⟨by decide,
    settlement_at_most_once_and_archived_only_by_settlement.2.2 [] c1db
      (Op.cancelOp 1 0) (by decide)⟩⟩

/-- C5 counterexample.  The claim says order creation gives the scheduler
TWO delayed jobs, with the transition-to-Closed job due at `closeDate`
regardless of how the Closing transition resolved.  On the code,
`createOrder` (closeDate 100, now 0, timeout 10) schedules exactly one
job — `closingOrder` at 90 — and no `closeOrder` job exists at creation;
moreover, running the `closingOrder` job against an order that is no
longer `Open` (the `Closed` order of `c3db`) schedules no `closeOrder` job
at all, so no Closed transition ever fires for it. -/
theorem createOrder_schedules_one_job_counterexample :
    (createOrder [] c3db [] 7 "x" 100 0 10).2 =
      [{ name := "closingOrder", due := 90, data := 7 }] ∧
    (¬ ∃ j ∈ (createOrder [] c3db [] 7 "x" 100 0 10).2,
      j.name = "closeOrder") ∧
    closingOrderJob c3db [] 1 90 10 = (c3db, []) := by decide

/-- C5 (amended).  Order creation hands the scheduler exactly one delayed
job: `closingOrder` due at `closeDate − orderCloseTimeout`, clamped to
`now` when that instant is already past.  When that job fires at time `t`
on an order still `Open` whose participant references all resolve, the
order moves to `Closing` and a `closeOrder` job due at
`t + orderCloseTimeout` is scheduled; when the order is no longer `Open`,
the database and the queue are left unchanged; and when the order is
`Open` but a populated participant reference dangles, the `Open → Closing`
update still commits while no `closeOrder` job is scheduled (the
recipient-list construction throws after the update). -/
theorem scheduling_amended :
    (∀ (orderTypes : List OrderType) (db : Db) (jobs : List Job)
        (newId : Nat) (typeName : String) (closeDate now timeout : Int),
      (createOrder orderTypes db jobs newId typeName closeDate now timeout).2 =
        jobs ++ [{ name := "closingOrder"
                   due := if closeDate - timeout < now then now
                     else closeDate - timeout
                   data := newId }]) ∧
    (∀ (db : Db) (jobs : List Job) (orderId : Nat) (fireTime timeout : Int)
        (o : Order) (parts : List User),
      (db.orders.map (fun x => x.oid)).Nodup →
      o ∈ db.orders → o.oid = orderId → o.state = OrderState.Open →
      populateUsers db.users o.userOrders = some parts →
      ∃ db2, closingOrderJob db jobs orderId fireTime timeout =
          (db2, jobs ++ [{ name := "closeOrder", due := fireTime + timeout,
                           data := orderId }]) ∧
        findOrderById db2.orders orderId =
          some { o with state := OrderState.Closing }) ∧
    (∀ (db : Db) (jobs : List Job) (orderId : Nat) (fireTime timeout : Int),
      (∀ x ∈ db.orders, ¬ (x.oid = orderId ∧ x.state = OrderState.Open)) →
      closingOrderJob db jobs orderId fireTime timeout = (db, jobs)) ∧
    (∀ (db : Db) (jobs : List Job) (orderId : Nat) (fireTime timeout : Int)
        (o : Order),
      (db.orders.map (fun x => x.oid)).Nodup →
      o ∈ db.orders → o.oid = orderId → o.state = OrderState.Open →
      populateUsers db.users o.userOrders = none →
      ∃ db2, closingOrderJob db jobs orderId fireTime timeout = (db2, jobs) ∧
        findOrderById db2.orders orderId =
          some { o with state := OrderState.Closing }) := by
  refine ⟨?_, ?_, ?_, ?_⟩
  · intro orderTypes db jobs newId typeName closeDate now timeout
    rfl
  · intro db jobs orderId fireTime timeout o parts hndO ho hoid hst hpop
    have hfst : (findOneAndUpdate
        (fun x : Order => x.oid = orderId ∧ x.state = OrderState.Open)
        (fun x => { x with state := OrderState.Closing }) db.orders).1
        = some o := by
      rw [findOneAndUpdate_fst]
      rw [mongoFindOne_keyed (fun x : Order => x.oid) (fun x hx => hx.1)
        hndO ho hoid]
      rw [if_pos ⟨hoid, hst⟩]
    unfold closingOrderJob
    dsimp only
    rw [hfst]
    dsimp only
    rw [hpop]
    refine ⟨_, rfl, ?_⟩
    exact findOneAndUpdate_lookup_found (fun x : Order => x.oid)
      (fun x hx => hx.1) (fun x _ => rfl) hndO ho hoid ⟨hoid, hst⟩
  · intro db jobs orderId fireTime timeout h
    unfold closingOrderJob
    dsimp only
    rw [findOneAndUpdate_eq_none_of h]
  · intro db jobs orderId fireTime timeout o hndO ho hoid hst hpop
    have hfst : (findOneAndUpdate
        (fun x : Order => x.oid = orderId ∧ x.state = OrderState.Open)
        (fun x => { x with state := OrderState.Closing }) db.orders).1
        = some o := by
      rw [findOneAndUpdate_fst]
      rw [mongoFindOne_keyed (fun x : Order => x.oid) (fun x hx => hx.1)
        hndO ho hoid]
      rw [if_pos ⟨hoid, hst⟩]
    unfold closingOrderJob
    dsimp only
    rw [hfst]
    dsimp only
    rw [hpop]
    refine ⟨_, rfl, ?_⟩
    exact findOneAndUpdate_lookup_found (fun x : Order => x.oid)
      (fun x hx => hx.1) (fun x _ => rfl) hndO ho hoid ⟨hoid, hst⟩

/-- A one-Open-order database for the C5/C6 witnesses — the three
participant references of `c5o` resolve in `c5db.users`. -/
def c5o : Order := { c1o with state := OrderState.Open }

def c5db : Db :=
  { orders := [c5o], users := c1parts, transactions := [], audits := [] }

/-- The same Open order with every participant reference dangling: the
users collection is empty (participants can disappear via the admin
`deleteUser` operation, which does not clean `userOrders`). -/
def c5dangdb : Db :=
  { orders := [c5o], users := [], transactions := [], audits := [] }

/-- Witness for the amended C5: creating an order with closeDate 100 at
time 0 and timeout 10 queues one `closingOrder` job at 90; firing the job
on the `Open` order of `c5db` (all participant refs resolving) moves it to
`Closing` and queues `closeOrder` at 100; firing it against the `Closed`
order of `c3db` changes nothing; and firing it on the `Open` order of
`c5dangdb`, whose participant refs all dangle, commits the `Closing` state
but queues no `closeOrder` job. -/
theorem scheduling_amended_witness :
    ((createOrder [] c5db [] 7 "x" 100 0 10).2 =
      [{ name := "closingOrder", due := 90, data := 7 }]) ∧
    ((c5db.orders.map (fun x => x.oid)).Nodup ∧
     c5o ∈ c5db.orders ∧ c5o.oid = 1 ∧ c5o.state = OrderState.Open ∧
     populateUsers c5db.users c5o.userOrders = some c1parts ∧
     (∃ db2, closingOrderJob c5db [] 1 90 10 =
        (db2, [] ++ [{ name := "closeOrder", due := (90 : Int) + 10,
                       data := 1 }]) ∧
       findOrderById db2.orders 1 =
         some { c5o with state := OrderState.Closing })) ∧
    ((∀ x ∈ c3db.orders, ¬ (x.oid = 1 ∧ x.state = OrderState.Open)) ∧
     closingOrderJob c3db [] 1 90 10 = (c3db, [])) ∧
    ((c5dangdb.orders.map (fun x => x.oid)).Nodup ∧
     c5o ∈ c5dangdb.orders ∧ c5o.oid = 1 ∧ c5o.state = OrderState.Open ∧
     populateUsers c5dangdb.users c5o.userOrders = none ∧
     (∃ db2, closingOrderJob c5dangdb [] 1 90 10 = (db2, []) ∧
       findOrderById db2.orders 1 =
         some { c5o with state := OrderState.Closing })) :=
  ⟨by decide,
   ⟨by decide, by decide, by decide, by decide, by decide,
    scheduling_amended.2.1 c5db [] 1 90 10 c5o c1parts (by decide) (by decide)
      (by decide) (by decide) (by decide)⟩,
   ⟨by decide, scheduling_amended.2.2.1 c3db [] 1 90 10 (by decide)⟩,
   ⟨by decide, by decide, by decide, by decide, by decide,
    scheduling_amended.2.2.2 c5dangdb [] 1 90 10 c5o (by decide) (by decide)
      (by decide) (by decide) (by decide)⟩⟩

/-- The document written by `closeOrderById`
(`orderAdministration.router.ts:434-437`): state `Closed` when there are
participants, `Cancelled` otherwise, with `closeDate` frozen to the actual
closing time. -/
def closedOrder (o : Order) (now : Int) : Order :=
  { o with
    state := if o.userOrders.length > 0
      then OrderState.Closed else OrderState.Cancelled
    closeDate := now }

/-- C6. When the close transition (`closeOrderById`, reached both by the
scheduled `closeOrder` job and by the manual close action) executes on an
order in state `Open` or `Closing`: with a non-empty participants list the
state becomes `Closed`, with an empty list it becomes `Cancelled` (never
passing through `Closed` — the transition is a single conditional write),
and in both cases `closeDate` is overwritten with the actual closing
time. -/
theorem close_transition_state_and_closeDate
    (db : Db) (orderId : Nat) (now : Int) (o : Order)
    (hndO : (db.orders.map (fun x => x.oid)).Nodup)
    (ho : o ∈ db.orders) (hoid : o.oid = orderId)
    (hstate : o.state = OrderState.Open ∨ o.state = OrderState.Closing) :
    ∃ db' o', closeOrderById db orderId now = some db' ∧
      closeOrderJob db orderId now = db' ∧
      findOrderById db'.orders orderId = some o' ∧
      o'.closeDate = now ∧
      o'.userOrders = o.userOrders ∧
      (o.userOrders ≠ [] → o'.state = OrderState.Closed) ∧
      (o.userOrders = [] → o'.state = OrderState.Cancelled) := by
  have hfind : mongoFindOne
      (fun x : Order => x.oid = orderId ∧
        (x.state = OrderState.Open ∨ x.state = OrderState.Closing))
      db.orders = some o := by
    rw [mongoFindOne_keyed (fun x : Order => x.oid) (fun x hx => hx.1)
      hndO ho hoid]
    rw [if_pos ⟨hoid, hstate⟩]
  have hclose : closeOrderById db orderId now = some
      { db with orders := saveOrder db.orders (closedOrder o now) } := by
    unfold closeOrderById
    rw [hfind]
    rfl
  subst hoid
  have hlook : findOrderById db.orders o.oid = some o := by
    unfold findOrderById
    rw [mongoFindOne_keyed (fun x : Order => x.oid) (fun x hx => hx)
      hndO ho rfl]
    rw [if_pos rfl]
  have hsave := findOrderById_saveOrder_self db.orders (closedOrder o now)
  refine ⟨_, closedOrder o now, hclose, ?_, ?_, rfl, rfl, ?_, ?_⟩
  · unfold closeOrderJob
    rw [hclose]
    rfl
  · dsimp only
    have hkey : (closedOrder o now).oid = o.oid := rfl
    rw [hkey] at hsave
    rw [hsave, hlook]
    rfl
  · intro hne
    unfold closedOrder
    dsimp only
    rw [if_pos (List.length_pos.mpr hne)]
  · intro hnil
    unfold closedOrder
    dsimp only
    rw [if_neg (by rw [hnil]; simp)]

/-- Witnesses for C6: the Open three-participant order of `c5db` closes to
`Closed`, and an Open order with no participants closes directly to
`Cancelled`; both get `closeDate` stamped to the closing time 77. -/
def c6emptyo : Order := { c5o with oid := 2, userOrders := [] }

def c6db : Db :=
  { orders := [c5o, c6emptyo], users := [], transactions := [], audits := [] }

theorem close_transition_state_and_closeDate_witness :
    ((c6db.orders.map (fun x => x.oid)).Nodup ∧
     c5o ∈ c6db.orders ∧ c5o.oid = 1 ∧
     (c5o.state = OrderState.Open ∨ c5o.state = OrderState.Closing) ∧
     c6emptyo ∈ c6db.orders ∧ c6emptyo.oid = 2 ∧
     (c6emptyo.state = OrderState.Open ∨ c6emptyo.state = OrderState.Closing)) ∧
    (∃ db' o', closeOrderById c6db 1 77 = some db' ∧
      closeOrderJob c6db 1 77 = db' ∧
      findOrderById db'.orders 1 = some o' ∧
      o'.closeDate = 77 ∧
      o'.userOrders = c5o.userOrders ∧
      (c5o.userOrders ≠ [] → o'.state = OrderState.Closed) ∧
      (c5o.userOrders = [] → o'.state = OrderState.Cancelled)) ∧
    (∃ db' o', closeOrderById c6db 2 77 = some db' ∧
      closeOrderJob c6db 2 77 = db' ∧
      findOrderById db'.orders 2 = some o' ∧
      o'.closeDate = 77 ∧
      o'.userOrders = c6emptyo.userOrders ∧
      (c6emptyo.userOrders ≠ [] → o'.state = OrderState.Closed) ∧
      (c6emptyo.userOrders = [] → o'.state = OrderState.Cancelled)) :=
  ⟨⟨by decide, by decide, by decide, by decide, by decide, by decide,
    by decide⟩,
   close_transition_state_and_closeDate c6db 1 77 c5o (by decide) (by decide)
     (by decide) (by decide),
   close_transition_state_and_closeDate c6db 2 77 c6emptyo (by decide)
     (by decide) (by decide) (by decide)⟩

/-- C7. The participants list changes only while the order is `Open` or
`Closing`: a join by a user already in the list is rejected with the
database unchanged, a leave by a user not in the list is rejected with the
database unchanged, and any join or leave against an order in state
`Closed`, `Archived` or `Cancelled` is rejected with the database
unchanged. -/
theorem participants_change_only_while_open_or_closing
    (orderTypes : List OrderType) (db : Db) (orderId userId : Nat)
    (body : List (String × String)) (o : Order)
    (hndO : (db.orders.map (fun x => x.oid)).Nodup)
    (ho : o ∈ db.orders) (hoid : o.oid = orderId) :
    ((∃ uo ∈ o.userOrders, uo.user = userId) →
      joinOrder orderTypes db orderId userId body =
        (db, Flash.error "Failed to join order; it may already be closed")) ∧
    ((∀ uo ∈ o.userOrders, uo.user ≠ userId) →
      leaveOrder db orderId userId =
        (db, Flash.error "Failed to leave order; it may already be closed")) ∧
    ((o.state = OrderState.Closed ∨ o.state = OrderState.Archived ∨
        o.state = OrderState.Cancelled) →
      joinOrder orderTypes db orderId userId body =
        (db, Flash.error "Failed to join order; it may already be closed") ∧
      leaveOrder db orderId userId =
        (db, Flash.error "Failed to leave order; it may already be closed")) := by
  have hjoin : ∀ (hq : ¬ ((o.state = OrderState.Open ∨ o.state = OrderState.Closing) ∧
      ¬ (∃ uo ∈ o.userOrders, uo.user = userId))),
      joinOrder orderTypes db orderId userId body =
        (db, Flash.error "Failed to join order; it may already be closed") := by
    intro hq
    unfold joinOrder
    rw [mongoFindOne_keyed (fun x : Order => x.oid) (fun x hx => hx.1)
      hndO ho hoid]
    rw [if_neg (fun hc => hq hc.2)]
  have hleave : ∀ (hq : ¬ ((o.state = OrderState.Open ∨ o.state = OrderState.Closing) ∧
      (∃ uo ∈ o.userOrders, uo.user = userId))),
      leaveOrder db orderId userId =
        (db, Flash.error "Failed to leave order; it may already be closed") := by
    intro hq
    have hnall : ∀ x ∈ db.orders, ¬ (x.oid = orderId ∧
        (x.state = OrderState.Open ∨ x.state = OrderState.Closing) ∧
        (∃ uo ∈ x.userOrders, uo.user = userId)) := by
      intro x hx hc
      have hxo := keyed_unique (fun q : Order => q.oid) hndO ho hoid x hx hc.1
      rw [hxo] at hc
      exact hq hc.2
    unfold leaveOrder
    dsimp only
    rw [findOneAndUpdate_eq_none_of hnall]
  refine ⟨?_, ?_, ?_⟩
  · intro hmem
    exact hjoin (fun hc => hc.2 hmem)
  · intro hnomem
    exact hleave (fun hc => by
      obtain ⟨uo, huo, hu⟩ := hc.2
      exact hnomem uo huo hu)
  · intro hterm
    have hnotopen : ¬ (o.state = OrderState.Open ∨ o.state = OrderState.Closing) := by
      rcases hterm with h | h | h <;> rw [h] <;>
        exact fun hc => by rcases hc with h' | h' <;> cases h'
    exact ⟨hjoin (fun hc => hnotopen hc.1), hleave (fun hc => hnotopen hc.1)⟩

/-- Order and database for the C7 witness: a Closing order joined by user
2, plus a Cancelled order. -/
def c7o : Order :=
  { c1o with
    state := OrderState.Closing
    userOrders := [{ user := 2, details := [] }] }

def c7cancelled : Order := { c1o with oid := 3, state := OrderState.Cancelled }

def c7db : Db :=
  { orders := [c7o, c7cancelled], users := c1parts, transactions := [],
    audits := [] }

/-- Witness for C7: joining order 1 again as user 2 fails; leaving order 1
as non-participant 3 fails; joining or leaving the Cancelled order 3 fails
— in all cases with the database unchanged. -/
theorem participants_change_only_while_open_or_closing_witness :
    ((∃ uo ∈ c7o.userOrders, uo.user = 2) ∧
      joinOrder [] c7db 1 2 [] =
        (c7db, Flash.error "Failed to join order; it may already be closed")) ∧
    ((∀ uo ∈ c7o.userOrders, uo.user ≠ 3) ∧
      leaveOrder c7db 1 3 =
        (c7db, Flash.error "Failed to leave order; it may already be closed")) ∧
    ((c7cancelled.state = OrderState.Closed ∨
        c7cancelled.state = OrderState.Archived ∨
        c7cancelled.state = OrderState.Cancelled) ∧
      joinOrder [] c7db 3 2 [] =
        (c7db, Flash.error "Failed to join order; it may already be closed") ∧
      leaveOrder c7db 3 2 =
        (c7db, Flash.error "Failed to leave order; it may already be closed")) :=
  ⟨⟨by decide,
    (participants_change_only_while_open_or_closing [] c7db 1 2 [] c7o
      (by decide) (by decide) (by decide)).1 (by decide)⟩,
   ⟨by decide,
    (participants_change_only_while_open_or_closing [] c7db 1 3 [] c7o
      (by decide) (by decide) (by decide)).2.1 (by decide)⟩,
   ⟨by decide,
    (participants_change_only_while_open_or_closing [] c7db 3 2 [] c7cancelled
      (by decide) (by decide) (by decide)).2.2 (by decide)⟩⟩

/-- C8. A coin transfer of amount `a` from sender `s` to recipient `r`
succeeds only when `a ≥ 1` (route validation `isInt({ min: 1 })`) and
`a ≤ s.coins`; otherwise it is rejected before any mutation, with the
database (balances, ledger) unchanged.  On success `s.coins` decreases by
`a`, `r.coins` increases by `a`, and exactly one two-entry LedgerEntry with
deltas `+a` (recipient) and `−a` (sender) is recorded. -/
theorem transfer_guards_and_effects
    : (∀ (db : Db) (s t : Nat) (coins now : Int),
        coins < 1 →
        transferCoins db s t coins now =
          (db, Flash.error "Invalid value (coins)")) ∧
      (∀ (db : Db) (s t : Nat) (coins now : Int) (su : User),
        findUserById db.users s = some su →
        1 ≤ coins → su.coins < coins →
        transferCoins db s t coins now =
          (db, Flash.error
            ("Can transfer at most " ++ toString su.coins ++ " coins"))) ∧
      (∀ (db : Db) (s t : Nat) (coins now : Int) (su tu : User),
        findUserById db.users s = some su →
        findUserById db.users t = some tu →
        s ≠ t → 1 ≤ coins → coins ≤ su.coins →
        ∃ db', transferCoins db s t coins now =
            (db', Flash.success ("Transferred " ++ toString coins ++ " coins")) ∧
          findUserById db'.users s = some { su with coins := su.coins - coins } ∧
          findUserById db'.users t = some { tu with coins := tu.coins + coins } ∧
          db'.transactions = db.transactions ++
            [{ description := "Coin transfer"
               date := now
               entries := [
                 { user := tu.uid, previousValue := tu.coins,
                   newValue := tu.coins + coins },
                 { user := su.uid, previousValue := su.coins,
                   newValue := su.coins - coins }] }]) := by
  refine ⟨?_, ?_, ?_⟩
  · intro db s t coins now hlt
    unfold transferCoins
    rw [if_pos hlt]
  · intro db s t coins now su hsu h1 hover
    unfold transferCoins
    rw [if_neg (not_lt.mpr h1), hsu]
    dsimp only
    rw [if_pos hover]
  · intro db s t coins now su tu hsu htu hst h1 hle
    obtain ⟨hsm, hsuid⟩ := findUserById_eq_some_inv hsu
    obtain ⟨htm, htuid⟩ := findUserById_eq_some_inv htu
    have htfst : (findOneAndUpdate (fun u : User => u.uid = t)
        (fun u => { u with coins := u.coins + coins }) db.users).1 = some tu := by
      rw [findOneAndUpdate_fst]; exact htu
    have hsnd_lookup : findUserById
        (findOneAndUpdate (fun u : User => u.uid = t)
          (fun u => { u with coins := u.coins + coins }) db.users).2 s =
        findUserById db.users s :=
      findOneAndUpdate_lookup_other (fun u : User => u.uid)
        (fun x hx => hx) (fun x _ => rfl) hst
    have hsfst : (findOneAndUpdate (fun u : User => u.uid = s)
        (fun u => { u with coins := u.coins - coins })
        (findOneAndUpdate (fun u : User => u.uid = t)
          (fun u => { u with coins := u.coins + coins }) db.users).2).1
        = some su := by
      rw [findOneAndUpdate_fst]
      show findUserById _ s = some su
      rw [hsnd_lookup]
      exact hsu
    unfold transferCoins
    rw [if_neg (not_lt.mpr h1), hsu]
    dsimp only
    rw [if_neg (not_lt.mpr hle)]
    rw [htfst]
    dsimp only
    rw [hsfst]
    refine ⟨_, rfl, ?_, ?_, rfl⟩
    · have hself : mongoFindOne (fun x : User => x.uid = s)
          (findOneAndUpdate (fun u : User => u.uid = s)
            (fun u => { u with coins := u.coins - coins })
            (findOneAndUpdate (fun u : User => u.uid = t)
              (fun u => { u with coins := u.coins + coins }) db.users).2).2 =
          (mongoFindOne (fun x : User => x.uid = s)
            (findOneAndUpdate (fun u : User => u.uid = t)
              (fun u => { u with coins := u.coins + coins }) db.users).2).map
            (fun u => { u with coins := u.coins - coins }) :=
        findOneAndUpdate_lookup_self (fun u : User => u.uid)
          (fun x => Iff.rfl) (fun x _ => rfl)
      show findUserById _ s = _
      unfold findUserById
      rw [hself]
      have := hsnd_lookup
      unfold findUserById at this
      rw [this]
      unfold findUserById at hsu
      rw [hsu]
      rfl
    · have hother2 : findUserById
          (findOneAndUpdate (fun u : User => u.uid = s)
            (fun u => { u with coins := u.coins - coins })
            (findOneAndUpdate (fun u : User => u.uid = t)
              (fun u => { u with coins := u.coins + coins }) db.users).2).2 t =
          findUserById
            (findOneAndUpdate (fun u : User => u.uid = t)
              (fun u => { u with coins := u.coins + coins }) db.users).2 t :=
        findOneAndUpdate_lookup_other (fun u : User => u.uid)
          (fun x hx => hx) (fun x _ => rfl) (fun h => hst h.symm)
      have hself : mongoFindOne (fun x : User => x.uid = t)
          (findOneAndUpdate (fun u : User => u.uid = t)
            (fun u => { u with coins := u.coins + coins }) db.users).2 =
          (mongoFindOne (fun x : User => x.uid = t) db.users).map
            (fun u => { u with coins := u.coins + coins }) :=
        findOneAndUpdate_lookup_self (fun u : User => u.uid)
          (fun x => Iff.rfl) (fun x _ => rfl)
      show findUserById _ t = _
      rw [hother2]
      unfold findUserById
      rw [hself]
      unfold findUserById at htu
      rw [htu]
      rfl

/-- Database for the C8 witness: user X (uid 1, balance 10) and user Y
(uid 2, balance 0). -/
def c8db : Db :=
  { orders := []
    users := [{ uid := 1, coins := 10, enabled := true },
              { uid := 2, coins := 0, enabled := true }]
    transactions := []
    audits := [] }

/-- Witness for C8: a transfer of 0 coins is rejected by validation; a
transfer of 11 coins from X (balance 10) is rejected with no change and no
LedgerEntry; a transfer of 5 coins from X to Y succeeds with X at 5, Y at
5 and one two-entry LedgerEntry (+5/−5). -/
theorem transfer_guards_and_effects_witness :
    ((0 : Int) < 1 ∧
      transferCoins c8db 1 2 0 0 =
        (c8db, Flash.error "Invalid value (coins)")) ∧
    (findUserById c8db.users 1 =
        some { uid := 1, coins := 10, enabled := true } ∧
      (10 : Int) < 11 ∧
      transferCoins c8db 1 2 11 0 =
        (c8db, Flash.error ("Can transfer at most " ++ toString (10 : Int) ++ " coins"))) ∧
    (∃ db', transferCoins c8db 1 2 5 0 =
        (db', Flash.success ("Transferred " ++ toString (5 : Int) ++ " coins")) ∧
      findUserById db'.users 1 =
        some { uid := 1, coins := 10 - 5, enabled := true } ∧
      findUserById db'.users 2 =
        some { uid := 2, coins := 0 + 5, enabled := true } ∧
      db'.transactions = c8db.transactions ++
        [{ description := "Coin transfer"
           date := 0
           entries := [
             { user := 2, previousValue := 0, newValue := 0 + 5 },
             { user := 1, previousValue := 10, newValue := 10 - 5 }] }]) :=
  ⟨⟨by decide,
    transfer_guards_and_effects.1 c8db 1 2 0 0 (by decide)⟩,
   ⟨by decide, by decide,
    transfer_guards_and_effects.2.1 c8db 1 2 11 0
      { uid := 1, coins := 10, enabled := true } (by decide) (by decide)
      (by decide)⟩,
   transfer_guards_and_effects.2.2 c8db 1 2 5 0
     { uid := 1, coins := 10, enabled := true }
     { uid := 2, coins := 0, enabled := true }
     (by decide) (by decide) (by decide) (by decide) (by decide)⟩

/-- Database for C9: one order already `Archived`. -/
def c9db : Db :=
  { orders := [{ c1o with state := OrderState.Archived }], users := [],
    transactions := [], audits := [] }

/-- C9 (code bug).  The claim — and §7 of the spec — require that an
operation whose target id does not resolve under its expected-state filter
reports a failure, never a silent success.  `cancelOrder`
(`orderAdministration.router.ts:385-412`) never inspects the result of its
`findOneAndUpdate`: the promise chain flashes
`'Order successfully canceled'` even when no document matched.  Evaluated
here: cancelling order 1 of `c9db`, whose state `Archived` is outside the
filter `{Open, Closing, Closed}`, changes nothing and still reports
success (`leaveOrder`, by contrast, does check and fails). -/
theorem cancel_unmatched_order_flashes_success :
    (∀ x ∈ c9db.orders, ¬ (x.oid = 1 ∧
      (x.state = OrderState.Open ∨ x.state = OrderState.Closing ∨
       x.state = OrderState.Closed))) ∧
    cancelOrder c9db 1 0 =
      (c9db, Flash.success "Order successfully canceled") ∧
    (leaveOrder c9db 1 5).2.isError = true := by decide

end CTM
